import Mathlib

/-!
Shallow embedding of `discord/ext/commands/bot.py` (fork `discord.py2`) and
proofs about its extension lifecycle, command invocation, prefix resolution,
schema conversion and schema diffing.

Conventions of the embedding:
* Python dicts become insertion-ordered association lists; `dictSet` mirrors
  `d[k] = v` (in-place update or append), `dictPop` mirrors `d.pop(k, None)`
  / `del d[k]`, `dictUpdate` mirrors `d.update(m)`.
* Exceptions become an `Option`/`Except` error component paired with the
  state reached when the exception escapes (Python exceptions do not undo
  side effects).
* A `setup` entry point is modelled as a deterministic list of registration
  actions followed by an optional raise; `teardown` bodies are modelled as
  having no effect on the tracked state (their exceptions are swallowed by
  `_call_module_finalizers`, and the tracked registries are not consulted).
-/

namespace DPy

instance {ε α : Type} [DecidableEq ε] [DecidableEq α] : DecidableEq (Except ε α) := fun x y =>
  match x, y with
  | .ok a, .ok b =>
    if h : a = b then isTrue (by rw [h]) else isFalse (fun hh => by cases hh; exact h rfl)
  | .error a, .error b =>
    if h : a = b then isTrue (by rw [h]) else isFalse (fun hh => by cases hh; exact h rfl)
  | .ok _, .error _ => isFalse (fun hh => by cases hh)
  | .error _, .ok _ => isFalse (fun hh => by cases hh)

/-- `dict.get`-style lookup on an insertion-ordered association list. -/
def dictGet {α : Type} : List (String × α) → String → Option α
  | [], _ => none
  | (k1, v) :: rest, k => if k1 = k then some v else dictGet rest k

/-- `d[k] = v` on a Python dict: update in place if the key exists, else append. -/
def dictSet {α : Type} : List (String × α) → String → α → List (String × α)
  | [], k, v => [(k, v)]
  | (k1, v1) :: rest, k, v =>
    if k1 = k then (k1, v) :: rest else (k1, v1) :: dictSet rest k v

/-- `d.pop(k, None)` / `del d[k]` on a Python dict. -/
def dictPop {α : Type} : List (String × α) → String → List (String × α)
  | [], _ => []
  | (k1, v1) :: rest, k => if k1 = k then rest else (k1, v1) :: dictPop rest k

/-- `d.update(m)`: fold `dictSet` over the entries of `m`. -/
def dictUpdate {α : Type} (d m : List (String × α)) : List (String × α) :=
  m.foldl (fun acc kv => dictSet acc kv.1 kv.2) d

/-- A registration a `setup` entry point may perform against the bot: adding a
cog, a top-level command, or a listener.  Each carries the dotted name of the
declaring module (`cog.__module__`, `cmd.module`, `event.__module__`). -/
inductive Action where
  | addCog (name mod : String)
  | addCommand (name mod : String)
  | addListener (event mod : String)
deriving DecidableEq, Repr

/-- The declaring module of a registration. -/
def Action.mod : Action → String
  | .addCog _ m => m
  | .addCommand _ m => m
  | .addListener _ m => m

/-- A loaded Python module object as far as the bot observes it: its
`__name__`, whether it has a `setup` attribute, and the (deterministic)
behaviour of that `setup`: the registrations it performs, then whether it
raises. -/
structure PyModule where
  pyName : String
  hasSetup : Bool
  setupActs : List Action
  setupRaises : Bool
deriving DecidableEq, Repr

/-- A module spec as returned by `importlib.util.find_spec`, together with the
behaviour of executing the module body: the extra `sys.modules` entries the
body registers (sub-module imports), whether the body raises, and the
attributes of the resulting module.  `importlib` sets the module `__name__`
from the spec name, so `pyName` is assigned at load time. -/
structure ModuleSpec where
  execMods : List (String × PyModule)
  execRaises : Bool
  hasSetup : Bool
  setupActs : List Action
  setupRaises : Bool
deriving DecidableEq, Repr

/-- The shared mutable registries of `BotBase`: `self.__cogs` (cog name ↦
declaring module), `self.all_commands` (command name ↦ declaring module;
aliases and nesting inside group objects are not tracked — the removal sweep
in the source iterates this same top-level dict), `self.extra_events`
(event name ↦ ordered listener-module list), `self.__extensions`, and the
process-wide `sys.modules` cache. -/
structure BotState where
  cogs : List (String × String)
  commands : List (String × String)
  listeners : List (String × List String)
  exts : List (String × PyModule)
  sysMods : List (String × PyModule)
deriving DecidableEq, Repr

/-- Effect of one registration on the cog dict (`add_cog`; a cog with a fresh
name is appended — `cog._inject` side effects on commands/listeners are
represented by separate actions carrying the same declaring module). -/
def applyCog (d : List (String × String)) : Action → List (String × String)
  | .addCog n m => dictSet d n m
  | _ => d

/-- Effect of one registration on the command dict (`add_command`). -/
def applyCmd (d : List (String × String)) : Action → List (String × String)
  | .addCommand n m => dictSet d n m
  | _ => d

/-- `add_listener`: append to the event's list, creating it if absent. -/
def addListenerEntry : List (String × List String) → String → String → List (String × List String)
  | [], e, m => [(e, [m])]
  | (e1, l) :: rest, e, m =>
    if e1 = e then (e1, l ++ [m]) :: rest else (e1, l) :: addListenerEntry rest e m

/-- Effect of one registration on the listener table. -/
def applyLst (d : List (String × List String)) : Action → List (String × List String)
  | .addListener e m => addListenerEntry d e m
  | _ => d

/-- Effect of one registration on the whole bot state. -/
def applyAction (s : BotState) (a : Action) : BotState :=
  { s with
    cogs := applyCog s.cogs a
    commands := applyCmd s.commands a
    listeners := applyLst s.listeners a }

/-- Run a module's `setup(bot)`: perform its registrations, report whether it
raised. -/
def runSetup (s : BotState) (lib : PyModule) : BotState × Bool :=
  (lib.setupActs.foldl applyAction s, lib.setupRaises)

/-- `str.startswith`, expressed on the character sequence (Python strings
index by characters). -/
def strStartsWith (s p : String) : Bool :=
  p.data.isPrefixOf s.data

/-- `_is_submodule` (bot.py line 132): `parent == child or
child.startswith(parent + ".")`. -/
def is_submodule (parent child : String) : Bool :=
  parent == child || strStartsWith child (parent ++ ".")

/-- `BotBase._remove_module_references` (bot.py lines 864-888): remove every
cog, top-level command and listener whose declaring module is the named
module or one of its sub-modules.  The source's copy-iterate-remove loops
amount to order-preserving filters on the name-keyed dicts; the listener loop
deletes the collected indices in reverse, i.e. filters each event's list but
keeps the event key. -/
def remove_module_references (s : BotState) (name : String) : BotState :=
  { s with
    cogs := s.cogs.filter (fun c => !(is_submodule name c.2))
    commands := s.commands.filter (fun c => !(is_submodule name c.2))
    listeners := s.listeners.map (fun el => (el.1, el.2.filter (fun m => !(is_submodule name m)))) }

/-- Lifecycle errors of the extension registry (`errors.ExtensionNotFound`
etc.). `rollbackSetupError` stands for an exception escaping from
`lib.setup(self)` inside `reload_extension`'s rollback. -/
inductive ExtErr where
  | extensionNotFound (name : String)
  | extensionAlreadyLoaded (name : String)
  | extensionNotLoaded (name : String)
  | noEntryPoint (name : String)
  | extensionFailed (name : String)
  | rollbackSetupError (name : String)
deriving DecidableEq, Repr

/-- `BotBase._call_module_finalizers` (bot.py lines 890-906): call `teardown`
swallowing any exception (modelled as having no effect on the tracked state),
then pop the extension entry, pop `sys.modules[key]`, and delete every cached
module that is a sub-module of `lib.__name__`. -/
def call_module_finalizers (s : BotState) (lib : PyModule) (key : String) : BotState :=
  let e := dictPop s.exts key
  let m1 := dictPop s.sysMods key
  let m2 := m1.filter (fun km => !(is_submodule lib.pyName km.1))
  { s with exts := e, sysMods := m2 }

/-- `BotBase._load_from_module_spec` (bot.py lines 908-934).  The module is
placed in `sys.modules`, its body executed (registering its sub-module
imports, then possibly raising — in which case only `sys.modules[key]` is
deleted), `setup` is looked up, and run; if `setup` raises, the cleanup chain
`del sys.modules[key]`; `_remove_module_references`; `_call_module_finalizers`
runs before `ExtensionFailed` is signalled.  On success the extension is
recorded. -/
def load_from_module_spec (s : BotState) (spec : ModuleSpec) (key : String) :
    BotState × Option ExtErr :=
  let lib : PyModule := ⟨key, spec.hasSetup, spec.setupActs, spec.setupRaises⟩
  let s1 := { s with sysMods := dictUpdate (dictSet s.sysMods key lib) spec.execMods }
  if spec.execRaises then
    ({ s1 with sysMods := dictPop s1.sysMods key }, some (.extensionFailed key))
  else if !lib.hasSetup then
    ({ s1 with sysMods := dictPop s1.sysMods key }, some (.noEntryPoint key))
  else
    let r := runSetup s1 lib
    if r.2 then
      let s2 := { r.1 with sysMods := dictPop r.1.sysMods key }
      let s3 := call_module_finalizers (remove_module_references s2 lib.pyName) lib key
      (s3, some (.extensionFailed key))
    else
      ({ r.1 with exts := dictSet r.1.exts key lib }, none)

/-- `BotBase.load_extension` (bot.py lines 942-987).  Name resolution
(`_resolve_name` with no relative package) is the identity; `find_spec` is the
environment `env`. -/
def load_extension (env : String → Option ModuleSpec) (s : BotState) (name : String) :
    BotState × Option ExtErr :=
  if (dictGet s.exts name).isSome then (s, some (.extensionAlreadyLoaded name))
  else
    match env name with
    | none => (s, some (.extensionNotFound name))
    | some spec => load_from_module_spec s spec name

/-- `BotBase.unload_extension` (bot.py lines 989-1028). -/
def unload_extension (s : BotState) (name : String) : BotState × Option ExtErr :=
  match dictGet s.exts name with
  | none => (s, some (.extensionNotLoaded name))
  | some lib => (call_module_finalizers (remove_module_references s lib.pyName) lib name, none)

/-- `BotBase.reload_extension` (bot.py lines 1030-1091): snapshot the cached
modules that are sub-modules of the extension, unload, reload; on any failure
re-run the old module's `setup` (an exception there escapes instead),
re-register the extension, `sys.modules.update(modules)`, and re-raise. -/
def reload_extension (env : String → Option ModuleSpec) (s : BotState) (name : String) :
    BotState × Option ExtErr :=
  match dictGet s.exts name with
  | none => (s, some (.extensionNotLoaded name))
  | some lib =>
    let modules := s.sysMods.filter (fun km => is_submodule lib.pyName km.1)
    let s2 := call_module_finalizers (remove_module_references s lib.pyName) lib name
    match load_extension env s2 name with
    | (s3, none) => (s3, none)
    | (s3, some e) =>
      let r := runSetup s3 lib
      if r.2 then (r.1, some (.rollbackSetupError name))
      else
        ({ r.1 with
            exts := dictSet r.1.exts name lib
            sysMods := dictUpdate r.1.sysMods modules }, some e)

/-- `self.extra_events.get(ev, [])` — the list of listeners the dispatcher
consults for an event. -/
def listenerGet (d : List (String × List String)) (e : String) : List String :=
  (dictGet d e).getD []

/-- The observable-state equality asserted by the reload-atomicity claim:
cog set, command tree, listener table and extension registry coincide, and
the cached module entries for the extension and its sub-modules coincide. -/
def reloadObservEq (name : String) (a b : BotState) : Bool :=
  a.cogs == b.cogs && a.commands == b.commands && a.listeners == b.listeners &&
  a.exts == b.exts &&
  a.sysMods.filter (fun km => is_submodule name km.1) ==
    b.sysMods.filter (fun km => is_submodule name km.1)

/-- The failing module of the C2 witness: its `setup` registers a cog, a
command and a sub-module listener, then raises. -/
def c2Spec : ModuleSpec :=
  ⟨[], false, true, [.addCog "C" "e", .addCommand "k" "e", .addListener "on_x" "e.sub"], true⟩

/-- Module environment of the C2 witness. -/
def c2Env : String → Option ModuleSpec :=
  fun n => if n = "e" then some c2Spec else none

/-- The empty bot state. -/
def emptyBot : BotState := ⟨[], [], [], [], []⟩

/-- Old module of the C1 counterexample: extension `ext`, empty `setup`. -/
def c1Lib : PyModule := ⟨"ext", true, [], false⟩

/-- Sub-module object imported by the failing new body of `ext`. -/
def c1Sub : PyModule := ⟨"ext.sub", false, [], false⟩

/-- State with `ext` loaded: registry and module cache hold it, no artifacts. -/
def c1Pre : BotState := ⟨[], [], [], [("ext", c1Lib)], [("ext", c1Lib)]⟩

/-- New on-disk version of `ext`: its body imports `ext.sub` and then raises. -/
def c1Spec : ModuleSpec := ⟨[("ext.sub", c1Sub)], true, true, [], false⟩

/-- Module environment for the C1 counterexample. -/
def c1Env : String → Option ModuleSpec :=
  fun n => if n = "ext" then some c1Spec else none

/-! ### Command invocation (`BotBase.can_run`, `BotBase.invoke`) -/

/-- Classification of an exception by the taxonomy `invoke` distinguishes:
`errors.CommandError` (domain), `TypeError`, anything else. -/
inductive ExcKind where
  | commandError
  | typeError
  | otherError
deriving DecidableEq, Repr

/-- Behaviour of one global call-once check applied to the context: return a
boolean, or raise. -/
inductive CheckRes where
  | retTrue
  | retFalse
  | raises (e : ExcKind)
deriving DecidableEq, Repr

/-- The slice of a `Context` that `invoke` inspects: whether a command
resolved, whether `ctx.invoked_with` is truthy, whether
`ctx.command_type in ctx.command.type` holds (else `can_run` raises
`TypeError`), and the outcome of `ctx.command.invoke(ctx)` (its per-command
checks, hooks and handler): success or an exception of some kind. -/
structure InvokeCtx where
  hasCommand : Bool
  invokedWith : Bool
  commandTypeOk : Bool
  pipeline : Option ExcKind
deriving DecidableEq, Repr

/-- `discord.utils.async_all` over the check generator: evaluate in order,
short-circuit on the first `False`, propagate the first exception. -/
def asyncAll : List CheckRes → Sum ExcKind Bool
  | [] => .inr true
  | .retTrue :: rest => asyncAll rest
  | .retFalse :: _ => .inr false
  | .raises e :: _ => .inl e

/-- `BotBase.can_run` (bot.py lines 557-567) for the call-once list: raise
`TypeError` when the command type does not match, return `True` when the list
is empty, else fold the checks. -/
def can_run (checks : List CheckRes) (ctx : InvokeCtx) : Sum ExcKind Bool :=
  if !ctx.commandTypeOk then .inl .typeError
  else if checks.isEmpty then .inr true
  else asyncAll checks

/-- Result of the `try` block of `invoke`: the events dispatched so far and,
if an exception escaped the block, its kind. -/
inductive TryRes where
  | success (evs : List String)
  | raised (evs : List String) (e : ExcKind)
deriving DecidableEq, Repr

/-- The `try` block of `BotBase.invoke` (bot.py lines 1296-1302): if the
call-once checks pass, dispatch `command` and run the command pipeline; if
they return false, dispatch `command` and raise `CheckFailure` (a
`CommandError`); an exception from `can_run` itself escapes before any
dispatch. -/
def invokeTryBody (checks : List CheckRes) (ctx : InvokeCtx) : TryRes :=
  match can_run checks ctx with
  | .inl e => .raised [] e
  | .inr true =>
    match ctx.pipeline with
    | none => .success ["command"]
    | some e => .raised ["command"] e
  | .inr false => .raised ["command"] .commandError
/-- `BotBase.invoke` (bot.py lines 1282-1312).  Returns the list of dispatch
calls made, in order (`"command"`, `"command_completion"`,
`"command_dispatch_error"` marking `ctx.command.dispatch_error`,
`"command_error"` for the not-found dispatch), and the exception that
propagates to the caller, if any.  `except errors.CommandError` dispatches
`command` again and routes to `dispatch_error`; `except TypeError` passes
silently; other exceptions escape. -/
def bot_invoke (checks : List CheckRes) (ctx : InvokeCtx) : List String × Option ExcKind :=
  if ctx.hasCommand then
    match invokeTryBody checks ctx with
    | .success evs => (evs ++ ["command_completion"], none)
    | .raised evs .commandError => (evs ++ ["command", "command_dispatch_error"], none)
    | .raised evs .typeError => (evs, none)
    | .raised evs .otherError => (evs, some .otherError)
  else if ctx.invokedWith then (["command_error"], none)
  else ([], none)

/-- The number of times `invoke` actually dispatches the `command` event, as
a function of the run's outcome (the corrected count for claim C3). -/
def commandDispatchCount (checks : List CheckRes) (ctx : InvokeCtx) : Nat :=
  if !ctx.hasCommand then 0
  else
    match can_run checks ctx with
    | .inl .commandError => 1
    | .inl .typeError => 0
    | .inl .otherError => 0
    | .inr false => 2
    | .inr true =>
      match ctx.pipeline with
      | none => 1
      | some .commandError => 2
      | some .typeError => 1
      | some .otherError => 1

/-! ### Prefix resolution and text-context construction
(`BotBase.get_prefix`, `BotBase.get_context`) -/

/-- The message fields the text path consults. -/
structure Msg where
  content : String
  authorId : Nat
deriving DecidableEq, Repr

/-- The value the configured prefix source resolves to: a plain string, an
iterable of strings (after `list(ret)`), a non-iterable non-string, or an
iterable whose conversion itself raises. -/
inductive PyPfx where
  | pstr (s : String)
  | plist (l : List String)
  | pnotIterable
  | pfaultyIterable
deriving DecidableEq, Repr

/-- `Bot.command_prefix`: a fixed value or a callable of the message (the
bot handle argument adds nothing to the model). -/
inductive PfxSource where
  | value (p : PyPfx)
  | func (f : Msg → PyPfx)

/-- The bot fields the text path consults. -/
structure TextBot where
  userId : Nat
  commandPfx : PfxSource
  stripAfterPfx : Bool
  allCommands : List String

/-- Errors `get_prefix`/`get_context` can raise. -/
inductive PfxErr where
  | typeError
  | valueError
  | iterationFault
deriving DecidableEq, Repr

/-- Successful result of `get_prefix`: a bare string or a list of strings. -/
inductive PfxRet where
  | rstr (s : String)
  | rlist (l : List String)
deriving DecidableEq, Repr

/-- Resolve the configured prefix source, invoking it when callable
(`await discord.utils.maybe_coroutine(prefix, self, message)`). -/
def resolveRawPfx (b : TextBot) (m : Msg) : PyPfx :=
  match b.commandPfx with
  | .value p => p
  | .func f => f m

/-- `BotBase.get_prefix` (bot.py lines 1121-1161): a string is returned
unchanged; otherwise `list(ret)` must succeed (a `TypeError` from an
otherwise-iterable value propagates untouched, a non-iterable gets the
descriptive `TypeError`) and must be non-empty, else `ValueError`. -/
def get_prefix_of (b : TextBot) (m : Msg) : Except PfxErr PfxRet :=
  match resolveRawPfx b m with
  | .pstr s => .ok (.rstr s)
  | .plist l => if l.isEmpty then .error .valueError else .ok (.rlist l)
  | .pnotIterable => .error .typeError
  | .pfaultyIterable => .error .iterationFault

/-- `StringView` over the message content (modelled from the spec, §4.3 and
§2 ContextBuilder — `view.py` is not part of the provided source): a buffer of
characters and a cursor. -/
structure StrView where
  buffer : List Char
  pos : Nat
deriving DecidableEq, Repr

/-- The unread remainder of the view. -/
def strViewRest (v : StrView) : List Char :=
  v.buffer.drop v.pos

/-- Modelled from the spec: `StringView.skip_string` — if the remainder
starts with `s` verbatim, advance past it and report success, else leave the
view unchanged. -/
def skipStringV (v : StrView) (s : String) : StrView × Bool :=
  if s.data.isPrefixOf (strViewRest v) then
    ({ v with pos := v.pos + s.data.length }, true)
  else (v, false)

/-- Modelled from the spec: `StringView.skip_ws` — advance past leading
whitespace. -/
def skipWsV (v : StrView) : StrView :=
  { v with pos := v.pos + ((strViewRest v).takeWhile Char.isWhitespace).length }

/-- Modelled from the spec: `StringView.get_word` — read the next
whitespace-delimited word and advance past it. -/
def getWordV (v : StrView) : String × StrView :=
  let w := (strViewRest v).takeWhile (fun c => !c.isWhitespace)
  (⟨w⟩, { v with pos := v.pos + w.length })

/-- The context fields the text path produces: `ctx.prefix`,
`ctx.invoked_with`, `ctx.command` (recorded by name; an unset field is the
initial `None`). -/
structure TextCtx where
  pfx : Option String
  invokedWith : Option String
  command : Option String
deriving DecidableEq, Repr

/-- Common tail of `get_context` after a prefix match (bot.py lines
1232-1240): optionally skip whitespace, tokenize the invoker word, look the
command up in `all_commands`. -/
def contextFinish (b : TextBot) (v : StrView) (p : Option String) : TextCtx :=
  let v1 := if b.stripAfterPfx then skipWsV v else v
  let wv := getWordV v1
  ⟨p, some wv.1, if b.allCommands.contains wv.1 then some wv.1 else none⟩

/-- `BotBase.get_context` (bot.py lines 1163-1240).  Self-authored messages
short-circuit to an invalid context.  A string prefix must match verbatim via
`view.skip_string`.  A prefix collection is tested with
`message.content.startswith(tuple(prefix))` and the invoked prefix is
`discord.utils.find(view.skip_string, prefix)`: the first entry in source
order whose `skip_string` succeeds (the view is at position 0, so the test is
a literal `startswith`; the first success advances the view).  The source's
`except TypeError` re-validation arm is unreachable here because the model
types prefixes as strings. -/
def get_context (b : TextBot) (m : Msg) : Except PfxErr TextCtx :=
  let view : StrView := ⟨m.content.data, 0⟩
  let ctx0 : TextCtx := ⟨none, none, none⟩
  if m.authorId == b.userId then .ok ctx0
  else
    match get_prefix_of b m with
    | .error e => .error e
    | .ok (.rstr p) =>
      let r := skipStringV view p
      if !r.2 then .ok ctx0 else .ok (contextFinish b r.1 (some p))
    | .ok (.rlist l) =>
      if l.any (fun p => strStartsWith m.content p) then
        match l.find? (fun p => (skipStringV view p).2) with
        | some p => .ok (contextFinish b (skipStringV view p).1 (some p))
        | none => .ok (contextFinish b view none)
      else .ok ctx0

/-! ### Schema conversion (`_convert_application_command_option_type`,
`_convert_param`) -/

/-- The annotation atoms the type table distinguishes (bot.py lines
136-157); `tNoneType` is `type(None)`, `tOther` any other plain type. -/
inductive PyType where
  | tstr
  | tint
  | tbool
  | tUser
  | tMember
  | tTextChannel
  | tVoiceChannel
  | tCategoryChannel
  | tThread
  | tStageChannel
  | tRole
  | tfloat
  | tNoneType
  | tOther
deriving DecidableEq, Repr

/-- `_convert_application_command_option_type` (bot.py lines 136-157): the
fixed identity-based type table; anything that matches no arm (including
`type(None)` and `Literal` aliases) falls through to 3. -/
def convert_application_command_option_type : PyType → Nat
  | .tstr => 3
  | .tint => 4
  | .tbool => 5
  | .tUser => 6
  | .tMember => 6
  | .tTextChannel => 7
  | .tVoiceChannel => 7
  | .tCategoryChannel => 7
  | .tThread => 7
  | .tStageChannel => 7
  | .tRole => 8
  | .tfloat => 10
  | .tNoneType => 3
  | .tOther => 3

/-- A choice value: Python `str`, `int` or `float` (floats carried as
rationals; no arithmetic is performed on them). -/
inductive CVal where
  | vstr (s : String)
  | vint (n : Int)
  | vfloat (q : Rat)
deriving DecidableEq, Repr

/-- Python `==` across these value kinds: `int`/`float` compare numerically,
strings never equal numbers. -/
def CVal.pyEq : CVal → CVal → Bool
  | .vstr a, .vstr b => a == b
  | .vint a, .vint b => a == b
  | .vfloat a, .vfloat b => a == b
  | .vint a, .vfloat b => ((a : Rat) == b)
  | .vfloat a, .vint b => (a == (b : Rat))
  | _, _ => false

/-- One `{"name": ..., "value": ...}` choice record. -/
structure Choice where
  name : String
  value : CVal
deriving DecidableEq, Repr

/-- The argument list of a `Literal[...]` annotation.  The source inspects
`isinstance(annotation.__args__[0], str | int | float)` and converts every
argument with that arm, so homogeneous lists model the reachable behaviour
(an empty or mixed-kind `Literal` is degenerate and not modelled). -/
inductive LitArgs where
  | strs (l : List String)
  | ints (l : List Int)
  | floats (l : List Rat)
deriving DecidableEq, Repr

/-- A member of a `Union[...]` annotation: a plain type or a `Literal`. -/
inductive UnionArg where
  | ty (t : PyType)
  | lit (la : LitArgs)
deriving DecidableEq, Repr

/-- A parameter annotation as `_convert_param` analyses it: absent
(`param.empty`), a plain type, a `Union`, or a `Literal`. -/
inductive Ann where
  | empty
  | ty (t : PyType)
  | union (args : List UnionArg)
  | lit (la : LitArgs)
deriving DecidableEq, Repr

/-- The choice list built from a `Literal`'s arguments (bot.py lines 176-190
and 203-212): names via `str(i)`, values via `str(i)` / `int(i)` /
`float(i)`.  Python's float-to-string formatting is abstracted as `toString`
of the rational; no claim depends on it. -/
def litChoices : LitArgs → Nat × List Choice
  | .strs l => (3, l.map (fun s => ⟨s, .vstr s⟩))
  | .ints l => (4, l.map (fun n => ⟨toString n, .vint n⟩))
  | .floats l => (10, l.map (fun q => ⟨toString q, .vfloat q⟩))

/-- `getattr(i, "__origin__", None) is Literal` for a union member. -/
def isLitArg : UnionArg → Bool
  | .lit _ => true
  | .ty _ => false

/-- The wire type of a union member under the fixed table; a `Literal` alias
matches no arm of the table and falls through to 3. -/
def convertUnionArgType : UnionArg → Nat
  | .ty t => convert_application_command_option_type t
  | .lit _ => 3

/-- The union-merging arm of `_convert_param` (bot.py lines 191-202):
convert every non-`None` member, then collapse: all equal, all in `{6,7,8}`
↦ 9, all in `{4,10}` ↦ 10, else 3.  The empty-`types` case is unreachable
(Python would fault on `types[0]`; a union always has a non-`None` member). -/
def unionMergeTypes (args : List UnionArg) : Nat :=
  let types := (args.filter (fun a => a != .ty .tNoneType)).map convertUnionArgType
  match types with
  | [] => 3
  | t :: _ =>
    if types.all (fun i => i == t) then t
    else if types.all (fun i => i == 6 || i == 7 || i == 8) then 9
    else if types.all (fun i => i == 4 || i == 10) then 10
    else 3

/-- `_convert_param` (bot.py lines 160-213) applied to the parameter's
annotation: no annotation ↦ 3; a two-member union containing a `Literal`
converts the first `Literal` member with its choice list; other unions merge;
a bare `Literal` converts with its choice list; a plain type uses the table. -/
def convert_param (ann : Ann) : Nat ⊕ (Nat × List Choice) :=
  match ann with
  | .empty => .inl 3
  | .union args =>
    if args.length == 2 && args.any isLitArg then
      match args.find? isLitArg with
      | some (.lit la) => .inr (litChoices la)
      | _ => .inl (unionMergeTypes args)
    else .inl (unionMergeTypes args)
  | .lit la => .inr (litChoices la)
  | .ty t => .inl (convert_application_command_option_type t)

/-- The wire type of a conversion result (the first tuple component when a
choice list is attached). -/
def resultWireType : Nat ⊕ (Nat × List Choice) → Nat
  | .inl t => t
  | .inr p => p.1

/-- Modelled from the spec's union-merging sentence (§4.6), for comparison
with the code: "if all members already map to the same wire type, use it; if
all are among user/channel/role, collapse to mentionable 9; if all are among
integer/numeric, collapse to numeric; otherwise default to string". -/
def specUnionMerge (args : List UnionArg) : Nat :=
  let types := (args.filter (fun a => a != .ty .tNoneType)).map convertUnionArgType
  match types with
  | [] => 3
  | t :: _ =>
    if types.all (fun i => i == t) then t
    else if types.all (fun i => ([6, 7, 8] : List Nat).contains i) then 9
    else if types.all (fun i => ([4, 10] : List Nat).contains i) then 10
    else 3

/-! ### Schema diffing (`_check_options`, `_check_choices`) -/

/-- One option record as the differ reads it, with the `dict.get` defaults
applied: `options` defaults to `[]`, `default_permissions` to `True`,
`choices` to `[]`. -/
inductive OptNode where
  | mk (name : String) (description : String) (defaultPermissions : Bool)
      (options : List OptNode) (choices : List Choice)

/-- `i.get("name")`. -/
def OptNode.name : OptNode → String
  | .mk n _ _ _ _ => n

/-- `i.get("description")`. -/
def OptNode.description : OptNode → String
  | .mk _ d _ _ _ => d

/-- `i.get("default_permissions", True)` (`is`-compared booleans). -/
def OptNode.defaultPermissions : OptNode → Bool
  | .mk _ _ p _ _ => p

/-- `i.get("options", [])`. -/
def OptNode.options : OptNode → List OptNode
  | .mk _ _ _ o _ => o

/-- `i.get("choices", [])`. -/
def OptNode.choices : OptNode → List Choice
  | .mk _ _ _ _ c => c

mutual

/-- Size of an option node (computable `sizeOf` substitute for the nested
inductive, used as recursion fuel). -/
def optSize : OptNode → Nat
  | .mk _ _ _ o _ => 1 + optListSize o

/-- Size of an option list. -/
def optListSize : List OptNode → Nat
  | [] => 1
  | a :: l => 1 + optSize a + optListSize l

end

/-- `_check_choices` (bot.py lines 335-341): empties match iff both empty,
else a two-way exact match by name and value. -/
def check_choices (current new : List Choice) : Bool :=
  if (!current.isEmpty && new.isEmpty) || (!new.isEmpty && current.isEmpty) then false
  else if new.isEmpty && current.isEmpty then true
  else
    (current.all fun j => new.any fun i => i.name == j.name && CVal.pyEq i.value j.value) &&
    (new.all fun i => current.any fun j => i.name == j.name && CVal.pyEq i.value j.value)

/-- The dict comprehension `{i.get("name"): i.get("options", []) for i in
current}` (bot.py line 324): later duplicates of a name overwrite earlier
ones. -/
def optionsDict (current : List OptNode) : List (String × List OptNode) :=
  current.foldl (fun d i => dictSet d i.name i.options) []

/-- `d.get(i.get("name"), [])` over that dict. -/
def optionsDictGet (current : List OptNode) (n : String) : List OptNode :=
  (dictGet (optionsDict current) n).getD []

/-- `_check_options` (bot.py lines 317-332), with an explicit fuel for the
recursion (every recursive call descends into the `options` of a member of
`new`, whose `sizeOf` strictly decreases, so `sizeOf new + 1` fuel is never
exhausted; fuel 0 is unreachable).  Empties match iff both empty; if any new
option nests, every new option is checked against the name-indexed options of
`current`; else a two-way exact match of the option records. -/
def checkOptionsGo : Nat → List OptNode → List OptNode → Bool
  | 0, _, _ => true
  | fuel + 1, current, new =>
    if (!current.isEmpty && new.isEmpty) || (!new.isEmpty && current.isEmpty) then false
    else if new.isEmpty && current.isEmpty then true
    else if new.any (fun i => !i.options.isEmpty) then
      new.all fun i => checkOptionsGo fuel (optionsDictGet current i.name) i.options
    else
      (current.all fun j => new.any fun i =>
        i.name == j.name && i.description == j.description &&
        checkOptionsGo fuel j.options i.options &&
        (i.defaultPermissions == j.defaultPermissions) &&
        check_choices j.choices i.choices) &&
      (new.all fun i => current.any fun j =>
        i.name == j.name && i.description == j.description &&
        checkOptionsGo fuel j.options i.options &&
        (i.defaultPermissions == j.defaultPermissions) &&
        check_choices j.choices i.choices)

/-- `_check_options(current, new)`. -/
def check_options (current new : List OptNode) : Bool :=
  checkOptionsGo (optListSize new + 1) current new

/-- Freshness of a registration relative to a base state: the cog or command
name it introduces is not already taken by an artifact of another module
(listener registration appends and needs no freshness). -/
def actFresh (s0 : BotState) : Action → Prop
  | .addCog n _ => dictGet s0.cogs n = none
  | .addCommand n _ => dictGet s0.commands n = none
  | .addListener _ _ => True

/-- The (cog name, module) pairs a list of registrations writes, in order. -/
def cogUpdates (acts : List Action) : List (String × String) :=
  acts.filterMap (fun a => match a with
    | .addCog n m => some (n, m)
    | _ => none)

/-- The (command name, module) pairs a list of registrations writes. -/
def cmdUpdates (acts : List Action) : List (String × String) :=
  acts.filterMap (fun a => match a with
    | .addCommand n m => some (n, m)
    | _ => none)

/-- The listener modules a list of registrations appends to event `e`. -/
def lstActsFor (e : String) (acts : List Action) : List String :=
  acts.filterMap (fun a => match a with
    | .addListener e1 m => if e1 = e then some m else none
    | _ => none)

/-- Old module spec of the C1 amended-claim witness: its body caches the
sub-module `ext.old` and its `setup` registers a listener. -/
def c1WOldSpec : ModuleSpec :=
  ⟨[("ext.old", ⟨"ext.old", false, [], false⟩)], false, true,
    [.addListener "on_x" "ext"], false⟩

/-- New (failing) module spec of the C1 amended-claim witness: registers a
cog from a sub-module, imports the sub-module, then its `setup` raises. -/
def c1WNewSpec : ModuleSpec :=
  ⟨[("ext.sub", ⟨"ext.sub", false, [], false⟩)], false, true, [.addCog "C" "ext.sub"], true⟩

/-- Environment for the original load in the C1 amended-claim witness. -/
def c1WEnv0 : String → Option ModuleSpec :=
  fun n => if n = "ext" then some c1WOldSpec else none

/-- Environment for the reload in the C1 amended-claim witness. -/
def c1WEnv : String → Option ModuleSpec :=
  fun n => if n = "ext" then some c1WNewSpec else none

/-- Shared leaf option of the C5 counterexample. -/
def c5O : List OptNode := [.mk "a" "d" true [] []]

/-- Leaf option list present only under `"y"` in the C5 counterexample. -/
def c5P : List OptNode := [.mk "b" "d" true [] []]

/-- C5 counterexample, first tree: two nested options `x` and `y`. -/
def c5A : List OptNode := [.mk "x" "d" true c5O [], .mk "y" "d" true c5P []]

/-- C5 counterexample, second tree: only `x`. -/
def c5B : List OptNode := [.mk "x" "d" true c5O []]

/-! ## Theorems -/

/-! ### Association-list and fold helper lemmas -/

theorem foldl_applyAction_exts (acts : List Action) (s : BotState) :
    (acts.foldl applyAction s).exts = s.exts := by
  induction acts generalizing s with
  | nil => rfl
  | cons a acts ih => rw [List.foldl_cons, ih]; rfl

theorem foldl_applyAction_sysMods (acts : List Action) (s : BotState) :
    (acts.foldl applyAction s).sysMods = s.sysMods := by
  induction acts generalizing s with
  | nil => rfl
  | cons a acts ih => rw [List.foldl_cons, ih]; rfl

theorem foldl_applyAction_cogs (acts : List Action) (s : BotState) :
    (acts.foldl applyAction s).cogs = acts.foldl applyCog s.cogs := by
  induction acts generalizing s with
  | nil => rfl
  | cons a acts ih => rw [List.foldl_cons, List.foldl_cons, ih]; rfl

theorem foldl_applyAction_commands (acts : List Action) (s : BotState) :
    (acts.foldl applyAction s).commands = acts.foldl applyCmd s.commands := by
  induction acts generalizing s with
  | nil => rfl
  | cons a acts ih => rw [List.foldl_cons, List.foldl_cons, ih]; rfl

theorem foldl_applyAction_listeners (acts : List Action) (s : BotState) :
    (acts.foldl applyAction s).listeners = acts.foldl applyLst s.listeners := by
  induction acts generalizing s with
  | nil => rfl
  | cons a acts ih => rw [List.foldl_cons, List.foldl_cons, ih]; rfl

theorem dictPop_eq_of_get_none {α : Type} (d : List (String × α)) (k : String)
    (h : dictGet d k = none) : dictPop d k = d := by
  induction d with
  | nil => rfl
  | cons kv rest ih =>
    obtain ⟨k1, v1⟩ := kv
    by_cases hk : k1 = k
    · rw [dictGet, if_pos hk] at h
      exact absurd h (by simp)
    · rw [dictGet, if_neg hk] at h
      rw [dictPop, if_neg hk, ih h]

theorem mem_dictPop_of_ne {α : Type} (d : List (String × α)) (key k : String) (v : α)
    (hmem : (k, v) ∈ d) (hne : k ≠ key) : (k, v) ∈ dictPop d key := by
  induction d with
  | nil => simp at hmem
  | cons kv rest ih =>
    obtain ⟨k1, v1⟩ := kv
    rw [dictPop]
    rcases List.mem_cons.1 hmem with h | h
    · have hk1 : k1 = k := (Prod.mk.injEq _ _ _ _ ▸ h.symm).1
      rw [if_neg (by rw [hk1]; exact hne)]
      exact h ▸ List.mem_cons_self _ _
    · by_cases hk : k1 = key
      · rw [if_pos hk]; exact h
      · rw [if_neg hk]; exact List.mem_cons_of_mem _ (ih h)

/-- C9: a parameter annotated as the literal enumeration of the three strings
`"a"`, `"b"`, `"c"` converts to wire type 3 with exactly three choice entries
whose name and value are both `"a"`, both `"b"`, and both `"c"`. -/
theorem c9_literal_choices :
    convert_param (.lit (.strs ["a", "b", "c"])) =
      .inr (3, [⟨"a", .vstr "a"⟩, ⟨"b", .vstr "b"⟩, ⟨"c", .vstr "c"⟩]) ∧
    [(⟨"a", .vstr "a"⟩ : Choice), ⟨"b", .vstr "b"⟩, ⟨"c", .vstr "c"⟩].length = 3 := by
  decide

/-- C8 counterexample: for the union `Optional[Literal[1]]` (two members, one
a `Literal`), the code takes the literal arm and produces wire type 4, while
the claim's merging rule (the lone non-`None` member maps to wire type 3 under
the fixed table, so "the result is that type") demands 3. -/
theorem c8_counterexample :
    resultWireType (convert_param (.union [.lit (.ints [1]), .ty .tNoneType])) = 4 ∧
    specUnionMerge [.lit (.ints [1]), .ty .tNoneType] = 3 := by
  decide

/-- C8 (amended): for every union annotation to which the two-member-with-a-
`Literal` special case does not apply, `_convert_param` merges member wire
types exactly as the spec's rule states. -/
theorem c8_union_merge (args : List UnionArg)
    (h : (args.length == 2 && args.any isLitArg) = false) :
    convert_param (.union args) = .inl (specUnionMerge args) := by
  have hmerge : unionMergeTypes args = specUnionMerge args := by
    have h678 : (fun i : Nat => i == 6 || i == 7 || i == 8) =
        (fun i : Nat => ([6, 7, 8] : List Nat).contains i) := by
      funext i
      by_cases h6 : i = 6 <;> by_cases h7 : i = 7 <;> by_cases h8 : i = 8 <;>
        simp [h6, h7, h8, List.contains]
    have h410 : (fun i : Nat => i == 4 || i == 10) =
        (fun i : Nat => ([4, 10] : List Nat).contains i) := by
      funext i
      by_cases h4 : i = 4 <;> by_cases h10 : i = 10 <;> simp [h4, h10, List.contains]
    simp only [unionMergeTypes, specUnionMerge, h678, h410]
  simp only [convert_param, h, Bool.false_eq_true, if_false, hmerge]

/-- Witness for `c8_union_merge`: `Union[int, float]` merges to numeric 10. -/
theorem c8_union_merge_witness :
    convert_param (.union [.ty .tint, .ty .tfloat]) =
      .inl (specUnionMerge [.ty .tint, .ty .tfloat]) ∧
    specUnionMerge [.ty .tint, .ty .tfloat] = 10 :=
  ⟨c8_union_merge [.ty .tint, .ty .tfloat] (by decide), by decide⟩

/-- C7: if the configured prefix source (after invoking it when callable)
yields a non-string value converting to an empty sequence, `get_prefix`
raises `ValueError`; a bare string result is returned unchanged. -/
theorem c7_empty_rejected_string_passthrough (b : TextBot) (m : Msg) :
    (∀ l, resolveRawPfx b m = .plist l → l = [] →
      get_prefix_of b m = .error .valueError) ∧
    (∀ s, resolveRawPfx b m = .pstr s → get_prefix_of b m = .ok (.rstr s)) := by
  constructor
  · intro l h1 h2
    simp [get_prefix_of, h1, h2]
  · intro s h1
    simp [get_prefix_of, h1]

/-- Witness for `c7_empty_rejected_string_passthrough` at a source returning
`[]` and a source returning the bare string `"!"`. -/
theorem c7_witness :
    get_prefix_of ⟨1, .value (.plist []), false, []⟩ ⟨"x", 2⟩ = .error .valueError ∧
    get_prefix_of ⟨1, .value (.pstr "!"), false, []⟩ ⟨"x", 2⟩ = .ok (.rstr "!") :=
  ⟨(c7_empty_rejected_string_passthrough ⟨1, .value (.plist []), false, []⟩ ⟨"x", 2⟩).1 [] rfl rfl,
   (c7_empty_rejected_string_passthrough ⟨1, .value (.pstr "!"), false, []⟩ ⟨"x", 2⟩).2 "!" rfl⟩

/-- C4 counterexample: a `TypeError` — a fault outside the `CommandError`
taxonomy — raised by the command pipeline after the once-checks pass is
silently discarded by `invoke`'s `except TypeError: pass`: nothing propagates
to the caller and nothing is routed through the command-error path, refuting
the claim that every non-domain fault propagates. -/
theorem c4_counterexample :
    can_run [] ⟨true, true, true, some .typeError⟩ = .inr true ∧
    (⟨true, true, true, some .typeError⟩ : InvokeCtx).pipeline = some .typeError ∧
    bot_invoke [] ⟨true, true, true, some .typeError⟩ = (["command"], none) := by
  decide

/-- C4 (amended): a fault that is neither a `CommandError` nor a `TypeError`
propagates out of `invoke` uncaught, whether raised by the once-checks or by
the command pipeline; a `TypeError` from either place is caught and silently
suppressed (neither propagated nor routed through the command-error path). -/
theorem c4_nondomain_propagation (checks : List CheckRes) (ctx : InvokeCtx)
    (h : ctx.hasCommand = true) :
    (can_run checks ctx = .inl .otherError → bot_invoke checks ctx = ([], some .otherError)) ∧
    (can_run checks ctx = .inr true → ctx.pipeline = some .otherError →
      bot_invoke checks ctx = (["command"], some .otherError)) ∧
    (can_run checks ctx = .inl .typeError → bot_invoke checks ctx = ([], none)) ∧
    (can_run checks ctx = .inr true → ctx.pipeline = some .typeError →
      bot_invoke checks ctx = (["command"], none)) := by
  refine ⟨?_, ?_, ?_, ?_⟩
  · intro h1
    simp [bot_invoke, invokeTryBody, h1, h]
  · intro h1 h2
    simp [bot_invoke, invokeTryBody, h1, h2, h]
  · intro h1
    simp [bot_invoke, invokeTryBody, h1, h]
  · intro h1 h2
    simp [bot_invoke, invokeTryBody, h1, h2, h]

/-- Witness for `c4_nondomain_propagation`: a pipeline fault outside the
taxonomy propagates. -/
theorem c4_nondomain_propagation_witness :
    bot_invoke [] ⟨true, true, true, some .otherError⟩ = (["command"], some .otherError) :=
  (c4_nondomain_propagation [] ⟨true, true, true, some .otherError⟩ rfl).2.1 (by decide) rfl

/-- C3 counterexample: when the call-once checks return `False` the `command`
event is dispatched twice — once in the `else` arm and once again in the
`except errors.CommandError` handler that catches the subsequent
`CheckFailure` — refuting "dispatched exactly once". -/
theorem c3_counterexample :
    can_run [.retFalse] ⟨true, true, true, none⟩ = .inr false ∧
    (bot_invoke [.retFalse] ⟨true, true, true, none⟩).1.count "command" = 2 := by
  decide

/-- C3 (amended): for a resolved command the number of `command` dispatches
is exactly `commandDispatchCount`: one on success, on a non-domain pipeline
fault, or when the once-checks themselves raise a `CommandError`; two when
the once-checks return `False` or the pipeline raises a `CommandError`; zero
when a `TypeError` is raised.  Whenever anything is dispatched, the first
dispatch is the `command` event, before the outcome events. -/
theorem c3_command_event_count (checks : List CheckRes) (ctx : InvokeCtx)
    (h : ctx.hasCommand = true) :
    (bot_invoke checks ctx).1.count "command" = commandDispatchCount checks ctx ∧
    ((bot_invoke checks ctx).1 = [] ∨ (bot_invoke checks ctx).1.head? = some "command") := by
  rcases hc : can_run checks ctx with e | b
  · cases e <;> simp [bot_invoke, invokeTryBody, commandDispatchCount, hc, h]
  · cases b
    · simp [bot_invoke, invokeTryBody, commandDispatchCount, hc, h]
    · rcases hp : ctx.pipeline with _ | e
      · simp [bot_invoke, invokeTryBody, commandDispatchCount, hc, hp, h]
      · cases e <;> simp [bot_invoke, invokeTryBody, commandDispatchCount, hc, hp, h]

/-- Witness for `c3_command_event_count`: a successful run dispatches
`command` exactly once and first. -/
theorem c3_command_event_count_witness :
    (bot_invoke [.retTrue] ⟨true, true, true, none⟩).1.count "command" =
      commandDispatchCount [.retTrue] ⟨true, true, true, none⟩ ∧
    ((bot_invoke [.retTrue] ⟨true, true, true, none⟩).1 = [] ∨
      (bot_invoke [.retTrue] ⟨true, true, true, none⟩).1.head? = some "command") :=
  c3_command_event_count [.retTrue] ⟨true, true, true, none⟩ rfl

/-- C6: when the resolved prefix set is a collection and the message content
starts with at least one entry, the invocation prefix recorded on the context
is the first entry in source order whose literal `startswith` test matches. -/
theorem c6_first_matching_source_order (b : TextBot) (m : Msg) (l : List String)
    (hAuthor : (m.authorId == b.userId) = false)
    (hResolve : resolveRawPfx b m = .plist l)
    (hMatch : l.any (fun p => strStartsWith m.content p) = true) :
    ∃ ctx, get_context b m = .ok ctx ∧
      ctx.pfx = l.find? (fun p => strStartsWith m.content p) := by
  have hne : l.isEmpty = false := by
    cases l
    · simp at hMatch
    · rfl
  have hpred : (fun p => (skipStringV ⟨m.content.data, 0⟩ p).2) =
      (fun p => strStartsWith m.content p) := by
    funext p
    simp only [skipStringV, strViewRest, List.drop_zero, strStartsWith, apply_ite]
    cases h : p.data.isPrefixOf m.content.data <;> simp [h]
  rcases hFind : l.find? (fun p => strStartsWith m.content p) with _ | p
  · exfalso
    rw [List.find?_eq_none] at hFind
    rw [List.any_eq_true] at hMatch
    obtain ⟨x, hx, hpx⟩ := hMatch
    exact hFind x hx hpx
  · refine ⟨contextFinish b (skipStringV ⟨m.content.data, 0⟩ p).1 (some p), ?_, by rfl⟩
    simp only [get_context, hAuthor, get_prefix_of, hResolve, hne, Bool.false_eq_true,
      if_false, hMatch, if_true, hpred, hFind]

/-- Witness for `c6_first_matching_source_order`, demonstrating the claim's
"in particular" instance: for prefixes `["!", "!!"]` and message `"!!ping"`
the resolved prefix is `"!"`, not `"!!"`. -/
theorem c6_witness :
    Except.map TextCtx.pfx
      (get_context ⟨1, .value (.plist ["!", "!!"]), false, []⟩ ⟨"!!ping", 2⟩) =
      .ok (some "!") := by
  obtain ⟨ctx, h1, h2⟩ :=
    c6_first_matching_source_order ⟨1, .value (.plist ["!", "!!"]), false, []⟩ ⟨"!!ping", 2⟩
      ["!", "!!"] (by decide) rfl (by decide)
  rw [h1]
  simp only [Except.map]
  rw [h2]
  decide

/-- C2: for every extension whose `setup` raises after registering any number
of cogs, commands, or listeners, `load_extension` signals `ExtensionFailed`
and afterwards the cog set, command tree and listener table contain zero
artifacts whose declaring module is the extension or one of its sub-modules,
and the extension is not in the extension registry. -/
theorem c2_no_partial_registration (env : String → Option ModuleSpec) (s : BotState)
    (key : String) (spec : ModuleSpec)
    (hEnv : env key = some spec) (hNot : dictGet s.exts key = none)
    (hExec : spec.execRaises = false) (hSetup : spec.hasSetup = true)
    (hRaises : spec.setupRaises = true) :
    (load_extension env s key).2 = some (.extensionFailed key) ∧
    (∀ c ∈ (load_extension env s key).1.cogs, is_submodule key c.2 = false) ∧
    (∀ c ∈ (load_extension env s key).1.commands, is_submodule key c.2 = false) ∧
    (∀ el ∈ (load_extension env s key).1.listeners, ∀ mo ∈ el.2,
      is_submodule key mo = false) ∧
    dictGet (load_extension env s key).1.exts key = none := by
  simp only [load_extension, hNot, Option.isSome_none, Bool.false_eq_true, if_false, hEnv,
    load_from_module_spec, hExec, hSetup, hRaises, runSetup, Bool.not_true, if_true,
    call_module_finalizers, remove_module_references]
  refine ⟨by trivial, ?_, ?_, ?_, ?_⟩
  · intro c hc
    have h := (List.mem_filter.1 hc).2
    simpa using h
  · intro c hc
    have h := (List.mem_filter.1 hc).2
    simpa using h
  · intro el hel mo hmo
    obtain ⟨el0, _, hmap⟩ := List.mem_map.1 hel
    rw [← hmap] at hmo
    have h := (List.mem_filter.1 hmo).2
    simpa using h
  · rw [foldl_applyAction_exts, dictPop_eq_of_get_none s.exts key hNot]
    exact hNot

/-- Witness for `c2_no_partial_registration`: a `setup` that registers a cog,
a command and a listener (the listener from a sub-module) and then raises. -/
theorem c2_witness :
    (load_extension c2Env emptyBot "e").2 = some (.extensionFailed "e") ∧
    ((load_extension c2Env emptyBot "e").1.cogs.all fun c => !(is_submodule "e" c.2)) = true ∧
    ((load_extension c2Env emptyBot "e").1.commands.all fun c =>
      !(is_submodule "e" c.2)) = true ∧
    ((load_extension c2Env emptyBot "e").1.listeners.all fun el =>
      el.2.all fun mo => !(is_submodule "e" mo)) = true ∧
    dictGet (load_extension c2Env emptyBot "e").1.exts "e" = none := by
  obtain ⟨h1, h2, h3, h4, h5⟩ :=
    c2_no_partial_registration c2Env emptyBot "e" c2Spec (by decide) rfl rfl rfl rfl
  refine ⟨h1, ?_, ?_, ?_, h5⟩
  · exact List.all_eq_true.2 fun c hc => by rw [h2 c hc]; rfl
  · exact List.all_eq_true.2 fun c hc => by rw [h3 c hc]; rfl
  · exact List.all_eq_true.2 fun el hel =>
      List.all_eq_true.2 fun mo hmo => by rw [h4 el hel mo hmo]; rfl

/-- C10: the sub-module test used by unload, failed-load cleanup and reload
snapshotting holds iff the child equals the parent or starts with the parent
followed by a dot; consequently stripping extension `"foo"` never removes
artifacts or cached modules of a module named `"foobar"`: every cog, command,
listener entry or cached module whose declaring module fails the test
survives `_remove_module_references` / `_call_module_finalizers`. -/
theorem c10_submodule_test :
    (∀ p c, is_submodule p c = true ↔ (c = p ∨ strStartsWith c (p ++ ".") = true)) ∧
    is_submodule "foo" "foobar" = false ∧
    (∀ (s : BotState) (p nm md : String), (nm, md) ∈ s.cogs → is_submodule p md = false →
      (nm, md) ∈ (remove_module_references s p).cogs) ∧
    (∀ (s : BotState) (p nm md : String), (nm, md) ∈ s.commands → is_submodule p md = false →
      (nm, md) ∈ (remove_module_references s p).commands) ∧
    (∀ (s : BotState) (p ev : String) (l : List String), (ev, l) ∈ s.listeners →
      (ev, l.filter (fun mm => !(is_submodule p mm))) ∈ (remove_module_references s p).listeners) ∧
    (∀ (p md : String) (l : List String), md ∈ l → is_submodule p md = false →
      md ∈ l.filter (fun mm => !(is_submodule p mm))) ∧
    (∀ (s : BotState) (lib : PyModule) (key k : String) (mo : PyModule),
      (k, mo) ∈ s.sysMods → k ≠ key → is_submodule lib.pyName k = false →
      (k, mo) ∈ (call_module_finalizers s lib key).sysMods) := by
  refine ⟨?_, by decide, ?_, ?_, ?_, ?_, ?_⟩
  · intro p c
    simp only [is_submodule, Bool.or_eq_true, beq_iff_eq]
    constructor
    · rintro (h | h)
      · exact Or.inl h.symm
      · exact Or.inr h
    · rintro (h | h)
      · exact Or.inl h.symm
      · exact Or.inr h
  · intro s p nm md hmem hsub
    exact List.mem_filter.2 ⟨hmem, by simp [hsub]⟩
  · intro s p nm md hmem hsub
    exact List.mem_filter.2 ⟨hmem, by simp [hsub]⟩
  · intro s p ev l hmem
    exact List.mem_map.2 ⟨(ev, l), hmem, rfl⟩
  · intro p md l hmd hsub
    exact List.mem_filter.2 ⟨hmd, by simp [hsub]⟩
  · intro s lib key k mo hmem hne hsub
    exact List.mem_filter.2 ⟨mem_dictPop_of_ne s.sysMods key k mo hmem hne, by simp [hsub]⟩

/-- Witness for `c10_submodule_test`: stripping `"foo"` leaves a cog, a
command, a listener and a cached module that belong to `"foobar"` in place. -/
theorem c10_witness :
    is_submodule "foo" "foo.bar" = true ∧
    ("C", "foobar") ∈ (remove_module_references
      ⟨[("C", "foobar")], [("k", "foobar")], [("on_x", ["foobar"])], [],
        [("foobar", ⟨"foobar", true, [], false⟩)]⟩ "foo").cogs ∧
    ("k", "foobar") ∈ (remove_module_references
      ⟨[("C", "foobar")], [("k", "foobar")], [("on_x", ["foobar"])], [],
        [("foobar", ⟨"foobar", true, [], false⟩)]⟩ "foo").commands ∧
    ("on_x", ["foobar"]) ∈ (remove_module_references
      ⟨[("C", "foobar")], [("k", "foobar")], [("on_x", ["foobar"])], [],
        [("foobar", ⟨"foobar", true, [], false⟩)]⟩ "foo").listeners ∧
    "foobar" ∈ ["foobar"].filter (fun mm => !(is_submodule "foo" mm)) ∧
    ("foobar", (⟨"foobar", true, [], false⟩ : PyModule)) ∈ (call_module_finalizers
      ⟨[("C", "foobar")], [("k", "foobar")], [("on_x", ["foobar"])], [],
        [("foobar", ⟨"foobar", true, [], false⟩)]⟩ ⟨"foo", true, [], false⟩ "foo").sysMods := by
  have hiff := (c10_submodule_test.1 "foo" "foo.bar").2 (Or.inr (by decide))
  have hlst := c10_submodule_test.2.2.2.2.1
    ⟨[("C", "foobar")], [("k", "foobar")], [("on_x", ["foobar"])], [],
      [("foobar", ⟨"foobar", true, [], false⟩)]⟩ "foo" "on_x" ["foobar"] (by decide)
  have hfilter : ["foobar"].filter (fun mm => !(is_submodule "foo" mm)) = ["foobar"] := by
    decide
  rw [hfilter] at hlst
  exact ⟨hiff,
    c10_submodule_test.2.2.1 _ "foo" "C" "foobar" (by decide) (by decide),
    c10_submodule_test.2.2.2.1 _ "foo" "k" "foobar" (by decide) (by decide),
    hlst,
    c10_submodule_test.2.2.2.2.2.1 "foo" "foobar" ["foobar"] (by decide) (by decide),
    c10_submodule_test.2.2.2.2.2.2 _ ⟨"foo", true, [], false⟩ "foo" "foobar" _ (by decide)
      (by decide) (by decide)⟩

/-! ### Helper lemmas for the extension rollback -/

theorem is_submodule_refl (n : String) : is_submodule n n = true := by
  simp [is_submodule]

theorem dictGet_none_of_all {α : Type} (d : List (String × α)) (k : String)
    (p : String → Bool) (hall : ∀ kv ∈ d, p kv.1 = false) (hk : p k = true) :
    dictGet d k = none := by
  induction d with
  | nil => rfl
  | cons kv rest ih =>
    obtain ⟨k1, v1⟩ := kv
    rw [dictGet]
    by_cases h : k1 = k
    · subst h
      have := hall (k1, v1) (List.mem_cons_self _ _)
      rw [this] at hk
      exact absurd hk (by simp)
    · rw [if_neg h]
      exact ih (fun kv hkv => hall kv (List.mem_cons_of_mem _ hkv))

theorem dictSet_append_left {α : Type} (d1 d2 : List (String × α)) (k : String) (v : α)
    (h : dictGet d1 k = none) : dictSet (d1 ++ d2) k v = d1 ++ dictSet d2 k v := by
  induction d1 with
  | nil => rfl
  | cons kv rest ih =>
    obtain ⟨k1, v1⟩ := kv
    rw [dictGet] at h
    by_cases hk : k1 = k
    · rw [if_pos hk] at h
      exact absurd h (by simp)
    · rw [if_neg hk] at h
      rw [List.cons_append, dictSet, if_neg hk, ih h, List.cons_append]

theorem dictSet_append_of_none {α : Type} (d : List (String × α)) (k : String) (v : α)
    (h : dictGet d k = none) : dictSet d k v = d ++ [(k, v)] := by
  have h2 := dictSet_append_left d [] k v h
  rw [List.append_nil] at h2
  exact h2

theorem dictPop_append_left {α : Type} (d1 d2 : List (String × α)) (k : String)
    (h : dictGet d1 k = none) : dictPop (d1 ++ d2) k = d1 ++ dictPop d2 k := by
  induction d1 with
  | nil => rfl
  | cons kv rest ih =>
    obtain ⟨k1, v1⟩ := kv
    rw [dictGet] at h
    by_cases hk : k1 = k
    · rw [if_pos hk] at h
      exact absurd h (by simp)
    · rw [if_neg hk] at h
      rw [List.cons_append, dictPop, if_neg hk, ih h, List.cons_append]

theorem dictGet_append_right {α : Type} (d1 d2 : List (String × α)) (k : String)
    (h : dictGet d1 k = none) : dictGet (d1 ++ d2) k = dictGet d2 k := by
  induction d1 with
  | nil => rfl
  | cons kv rest ih =>
    obtain ⟨k1, v1⟩ := kv
    rw [dictGet] at h
    by_cases hk : k1 = k
    · rw [if_pos hk] at h
      exact absurd h (by simp)
    · rw [if_neg hk] at h
      rw [List.cons_append, dictGet, if_neg hk, ih h]

theorem filterAllTrue {α : Type} (l : List α) (p : α → Bool) (h : ∀ a ∈ l, p a = true) :
    l.filter p = l := by
  induction l with
  | nil => rfl
  | cons a l ih =>
    rw [List.filter_cons, if_pos (h a (List.mem_cons_self _ _)),
      ih (fun b hb => h b (List.mem_cons_of_mem _ hb))]

theorem filterAllFalse {α : Type} (l : List α) (p : α → Bool) (h : ∀ a ∈ l, p a = false) :
    l.filter p = [] := by
  induction l with
  | nil => rfl
  | cons a l ih =>
    rw [List.filter_cons, if_neg (by rw [h a (List.mem_cons_self _ _)]; simp),
      ih (fun b hb => h b (List.mem_cons_of_mem _ hb))]

theorem mem_dictSet {α : Type} (d : List (String × α)) (k : String) (v : α)
    (kv : String × α) (h : kv ∈ dictSet d k v) : kv ∈ d ∨ kv = (k, v) := by
  induction d with
  | nil =>
    rw [dictSet] at h
    rcases List.mem_singleton.1 h with h2
    exact Or.inr h2
  | cons kv1 rest ih =>
    obtain ⟨k1, v1⟩ := kv1
    rw [dictSet] at h
    by_cases hk : k1 = k
    · rw [if_pos hk] at h
      rcases List.mem_cons.1 h with h2 | h2
      · exact Or.inr (by rw [h2, hk])
      · exact Or.inl (List.mem_cons_of_mem _ h2)
    · rw [if_neg hk] at h
      rcases List.mem_cons.1 h with h2 | h2
      · exact Or.inl (h2 ▸ List.mem_cons_self _ _)
      · rcases ih h2 with h3 | h3
        · exact Or.inl (List.mem_cons_of_mem _ h3)
        · exact Or.inr h3

theorem mem_dictPop_sub {α : Type} (d : List (String × α)) (k : String)
    (kv : String × α) (h : kv ∈ dictPop d k) : kv ∈ d := by
  induction d with
  | nil => exact absurd h (by simp [dictPop])
  | cons kv1 rest ih =>
    obtain ⟨k1, v1⟩ := kv1
    rw [dictPop] at h
    by_cases hk : k1 = k
    · rw [if_pos hk] at h
      exact List.mem_cons_of_mem _ h
    · rw [if_neg hk] at h
      rcases List.mem_cons.1 h with h2 | h2
      · exact h2 ▸ List.mem_cons_self _ _
      · exact List.mem_cons_of_mem _ (ih h2)

theorem dictUpdate_append_ex {α : Type} (Q : String × α → Prop) :
    ∀ (m d E : List (String × α)), (∀ u ∈ m, dictGet d u.1 = none) → (∀ u ∈ m, Q u) →
      (∀ kv ∈ E, Q kv) → ∃ E2, dictUpdate (d ++ E) m = d ++ E2 ∧ ∀ kv ∈ E2, Q kv := by
  intro m
  induction m with
  | nil => exact fun d E _ _ h3 => ⟨E, rfl, h3⟩
  | cons u m ih =>
    intro d E h1 h2 h3
    have hstep : dictUpdate (d ++ E) (u :: m) =
        dictUpdate (d ++ dictSet E u.1 u.2) m := by
      show List.foldl _ _ (u :: m) = _
      rw [List.foldl_cons, dictSet_append_left d E u.1 u.2 (h1 u (List.mem_cons_self _ _))]
      rfl
    rw [hstep]
    refine ih d (dictSet E u.1 u.2)
      (fun w hw => h1 w (List.mem_cons_of_mem _ hw))
      (fun w hw => h2 w (List.mem_cons_of_mem _ hw))
      (fun kv hkv => ?_)
    rcases mem_dictSet E u.1 u.2 kv hkv with h4 | h4
    · exact h3 kv h4
    · rw [h4]
      exact h2 u (List.mem_cons_self _ _)

theorem dictUpdate_append_left {α : Type} (m : List (String × α)) :
    ∀ (d E : List (String × α)), (∀ u ∈ m, dictGet d u.1 = none) →
      dictUpdate (d ++ E) m = d ++ dictUpdate E m := by
  induction m with
  | nil => intro d E _; rfl
  | cons u m ih =>
    intro d E h
    have hstep : dictUpdate (d ++ E) (u :: m) = dictUpdate (dictSet (d ++ E) u.1 u.2) m := rfl
    rw [hstep, dictSet_append_left d E u.1 u.2 (h u (List.mem_cons_self _ _)),
      ih d (dictSet E u.1 u.2) (fun w hw => h w (List.mem_cons_of_mem _ hw))]
    rfl

theorem mem_dictUpdate_all {α : Type} (Q : String × α → Prop) (m E : List (String × α))
    (hE : ∀ kv ∈ E, Q kv) (hm : ∀ u ∈ m, Q u) : ∀ kv ∈ dictUpdate E m, Q kv := by
  obtain ⟨E2, hE2, hq⟩ := dictUpdate_append_ex Q m [] E (fun u _ => rfl) hm hE
  rw [List.nil_append, List.nil_append] at hE2
  rw [hE2]
  exact hq

theorem dictSet_keys_nodup {α : Type} (d : List (String × α)) (k : String) (v : α)
    (h : (d.map Prod.fst).Nodup) : ((dictSet d k v).map Prod.fst).Nodup := by
  induction d with
  | nil => simp [dictSet]
  | cons kv rest ih =>
    obtain ⟨k1, v1⟩ := kv
    rw [dictSet]
    by_cases hk : k1 = k
    · rw [if_pos hk]
      simpa using h
    · rw [if_neg hk]
      rw [List.map_cons, List.nodup_cons] at h ⊢
      obtain ⟨hnotin, hrest⟩ := h
      refine ⟨?_, ih hrest⟩
      intro hmem
      obtain ⟨kv2, hkv2, hfst⟩ := List.mem_map.1 hmem
      rcases mem_dictSet rest k v kv2 hkv2 with h2 | h2
      · exact hnotin (List.mem_map.2 ⟨kv2, h2, hfst⟩)
      · refine hk ?_
        rw [h2] at hfst
        exact hfst.symm

theorem dictUpdate_keys_nodup {α : Type} (m : List (String × α)) :
    ∀ (d : List (String × α)), (d.map Prod.fst).Nodup →
      ((dictUpdate d m).map Prod.fst).Nodup := by
  induction m with
  | nil => intro d h; exact h
  | cons u m ih =>
    intro d h
    exact ih (dictSet d u.1 u.2) (dictSet_keys_nodup d u.1 u.2 h)

theorem dictUpdate_eq_append {α : Type} (m : List (String × α)) :
    ∀ (d : List (String × α)), (∀ kv ∈ m, dictGet d kv.1 = none) →
      (m.map Prod.fst).Nodup → dictUpdate d m = d ++ m := by
  induction m with
  | nil => intro d _ _; rw [List.append_nil]; rfl
  | cons u m ih =>
    intro d hfresh hnodup
    rw [List.map_cons, List.nodup_cons] at hnodup
    obtain ⟨hu, hm⟩ := hnodup
    have hstep : dictUpdate d (u :: m) = dictUpdate (dictSet d u.1 u.2) m := rfl
    rw [hstep, dictSet_append_of_none d u.1 u.2 (hfresh u (List.mem_cons_self _ _))]
    rw [ih (d ++ [(u.1, u.2)]) (fun kv hkv => ?_) hm, List.append_assoc]
    · rfl
    · rw [dictGet_append_right d _ _ (hfresh kv (List.mem_cons_of_mem _ hkv))]
      have hne : ¬(u.1 = kv.1) := fun he => hu (by
        rw [he]
        exact List.mem_map.2 ⟨kv, hkv, rfl⟩)
      rw [dictGet, if_neg hne]
      rfl

theorem foldl_applyCog_eq (acts : List Action) : ∀ d : List (String × String),
    acts.foldl applyCog d = dictUpdate d (cogUpdates acts) := by
  induction acts with
  | nil => intro d; rfl
  | cons a acts ih =>
    intro d
    rw [List.foldl_cons, ih]
    cases a with
    | addCog n m =>
      show dictUpdate (dictSet d n m) (cogUpdates acts) = dictUpdate d (cogUpdates (.addCog n m :: acts))
      rw [show cogUpdates (.addCog n m :: acts) = (n, m) :: cogUpdates acts from by
        simp [cogUpdates, List.filterMap_cons]]
      rfl
    | addCommand n m =>
      rw [show cogUpdates (.addCommand n m :: acts) = cogUpdates acts from by
        simp [cogUpdates, List.filterMap_cons]]
      rfl
    | addListener e m =>
      rw [show cogUpdates (.addListener e m :: acts) = cogUpdates acts from by
        simp [cogUpdates, List.filterMap_cons]]
      rfl

theorem foldl_applyCmd_eq (acts : List Action) : ∀ d : List (String × String),
    acts.foldl applyCmd d = dictUpdate d (cmdUpdates acts) := by
  induction acts with
  | nil => intro d; rfl
  | cons a acts ih =>
    intro d
    rw [List.foldl_cons, ih]
    cases a with
    | addCommand n m =>
      show dictUpdate (dictSet d n m) (cmdUpdates acts) = dictUpdate d (cmdUpdates (.addCommand n m :: acts))
      rw [show cmdUpdates (.addCommand n m :: acts) = (n, m) :: cmdUpdates acts from by
        simp [cmdUpdates, List.filterMap_cons]]
      rfl
    | addCog n m =>
      rw [show cmdUpdates (.addCog n m :: acts) = cmdUpdates acts from by
        simp [cmdUpdates, List.filterMap_cons]]
      rfl
    | addListener e m =>
      rw [show cmdUpdates (.addListener e m :: acts) = cmdUpdates acts from by
        simp [cmdUpdates, List.filterMap_cons]]
      rfl

theorem listenerGet_add (d : List (String × List String)) (e m x : String) :
    listenerGet (addListenerEntry d e m) x =
      listenerGet d x ++ (if x = e then [m] else []) := by
  induction d with
  | nil =>
    by_cases h : x = e
    · subst h
      simp [addListenerEntry, listenerGet, dictGet]
    · have h2 : ¬(e = x) := fun hh => h hh.symm
      simp [addListenerEntry, listenerGet, dictGet, h, h2]
  | cons el rest ih =>
    obtain ⟨e1, l⟩ := el
    by_cases h : e1 = e
    · subst h
      rw [addListenerEntry, if_pos rfl]
      by_cases h2 : e1 = x
      · subst h2
        simp [listenerGet, dictGet]
      · have h3 : ¬(x = e1) := fun hh => h2 hh.symm
        simp [listenerGet, dictGet, h2, h3]
    · rw [addListenerEntry, if_neg h]
      by_cases h2 : e1 = x
      · subst h2
        simp [listenerGet, dictGet, h]
      · simp only [listenerGet, dictGet, if_neg h2]
        exact ih

theorem listenerGet_fold (acts : List Action) : ∀ (T : List (String × List String)) (x : String),
    listenerGet (acts.foldl applyLst T) x = listenerGet T x ++ lstActsFor x acts := by
  induction acts with
  | nil => intro T x; simp [lstActsFor]
  | cons a acts ih =>
    intro T x
    rw [List.foldl_cons, ih]
    cases a with
    | addListener e m =>
      show listenerGet (addListenerEntry T e m) x ++ lstActsFor x acts = _
      rw [listenerGet_add, List.append_assoc]
      congr 1
      by_cases h : e = x
      · subst h
        simp [lstActsFor, List.filterMap_cons]
      · have h2 : ¬(x = e) := fun hh => h hh.symm
        simp [lstActsFor, List.filterMap_cons, h, h2]
    | addCog n m =>
      show listenerGet T x ++ lstActsFor x acts = _
      simp [lstActsFor, List.filterMap_cons]
    | addCommand n m =>
      show listenerGet T x ++ lstActsFor x acts = _
      simp [lstActsFor, List.filterMap_cons]

theorem listenerGet_map_filter (T : List (String × List String)) (p : String → Bool)
    (x : String) :
    listenerGet (T.map fun el => (el.1, el.2.filter p)) x = (listenerGet T x).filter p := by
  induction T with
  | nil => rfl
  | cons el rest ih =>
    obtain ⟨e, l⟩ := el
    by_cases h : e = x
    · subst h
      simp [listenerGet, dictGet]
    · simp only [List.map_cons, listenerGet, dictGet, if_neg h]
      exact ih

theorem dictGet_mem {α : Type} (d : List (String × α)) (k : String) (v : α)
    (h : dictGet d k = some v) : (k, v) ∈ d := by
  induction d with
  | nil => exact absurd h (by simp [dictGet])
  | cons kv rest ih =>
    obtain ⟨k1, v1⟩ := kv
    rw [dictGet] at h
    by_cases hk : k1 = k
    · rw [if_pos hk] at h
      have hv : v1 = v := by injection h
      subst hk
      rw [← hv]
      exact List.mem_cons_self _ _
    · rw [if_neg hk] at h
      exact List.mem_cons_of_mem _ (ih h)

theorem listenerGet_all (T : List (String × List String)) (x : String)
    (Q : String → Prop) (h : ∀ el ∈ T, ∀ mo ∈ el.2, Q mo) :
    ∀ mo ∈ listenerGet T x, Q mo := by
  intro mo hmo
  unfold listenerGet at hmo
  rcases hget : dictGet T x with _ | l
  · rw [hget] at hmo
    exact absurd hmo (by simp)
  · rw [hget] at hmo
    exact h (x, l) (dictGet_mem T x l hget) mo (by simpa using hmo)

theorem lstActsFor_all (x : String) (acts : List Action) (P : String → Bool)
    (h : ∀ a ∈ acts, P a.mod = true) : ∀ mo ∈ lstActsFor x acts, P mo = true := by
  intro mo hmo
  obtain ⟨a, ha, hmap⟩ := List.mem_filterMap.1 hmo
  cases a with
  | addListener e1 m =>
    have hmap2 : (if e1 = x then some m else none) = some mo := hmap
    by_cases he : e1 = x
    · rw [if_pos he] at hmap2
      have hm : m = mo := by injection hmap2
      rw [← hm]
      exact h _ ha
    · rw [if_neg he] at hmap2
      exact absurd hmap2 (by simp)
  | addCog n m =>
    have hmap2 : (none : Option String) = some mo := hmap
    exact absurd hmap2 (by simp)
  | addCommand n m =>
    have hmap2 : (none : Option String) = some mo := hmap
    exact absurd hmap2 (by simp)

theorem cogUpdates_fresh (acts : List Action) (s0 : BotState)
    (h : ∀ a ∈ acts, actFresh s0 a) :
    ∀ u ∈ cogUpdates acts, dictGet s0.cogs u.1 = none := by
  intro u hu
  obtain ⟨a, ha, hmap⟩ := List.mem_filterMap.1 hu
  cases a with
  | addCog n m =>
    have : (n, m) = u := by injection hmap
    rw [← this]
    exact h _ ha
  | addCommand n m => exact absurd hmap (by simp)
  | addListener e m => exact absurd hmap (by simp)

theorem cogUpdates_sub (acts : List Action) (name : String)
    (h : ∀ a ∈ acts, is_submodule name a.mod = true) :
    ∀ u ∈ cogUpdates acts, is_submodule name u.2 = true := by
  intro u hu
  obtain ⟨a, ha, hmap⟩ := List.mem_filterMap.1 hu
  cases a with
  | addCog n m =>
    have : (n, m) = u := by injection hmap
    rw [← this]
    exact h _ ha
  | addCommand n m => exact absurd hmap (by simp)
  | addListener e m => exact absurd hmap (by simp)

theorem cmdUpdates_fresh (acts : List Action) (s0 : BotState)
    (h : ∀ a ∈ acts, actFresh s0 a) :
    ∀ u ∈ cmdUpdates acts, dictGet s0.commands u.1 = none := by
  intro u hu
  obtain ⟨a, ha, hmap⟩ := List.mem_filterMap.1 hu
  cases a with
  | addCommand n m =>
    have : (n, m) = u := by injection hmap
    rw [← this]
    exact h _ ha
  | addCog n m => exact absurd hmap (by simp)
  | addListener e m => exact absurd hmap (by simp)

theorem cmdUpdates_sub (acts : List Action) (name : String)
    (h : ∀ a ∈ acts, is_submodule name a.mod = true) :
    ∀ u ∈ cmdUpdates acts, is_submodule name u.2 = true := by
  intro u hu
  obtain ⟨a, ha, hmap⟩ := List.mem_filterMap.1 hu
  cases a with
  | addCommand n m =>
    have : (n, m) = u := by injection hmap
    rw [← this]
    exact h _ ha
  | addCog n m => exact absurd hmap (by simp)
  | addListener e m => exact absurd hmap (by simp)

/-- Stripping a dict that extends a clean base with namespaced, fresh entries
restores the base. -/
theorem filter_dictUpdate_sub (d : List (String × String)) (name : String)
    (us : List (String × String))
    (h0 : ∀ c ∈ d, is_submodule name c.2 = false)
    (hFresh : ∀ u ∈ us, dictGet d u.1 = none)
    (hSub : ∀ u ∈ us, is_submodule name u.2 = true) :
    (dictUpdate d us).filter (fun c => !(is_submodule name c.2)) = d := by
  obtain ⟨E2, hE2, hE2sub⟩ := dictUpdate_append_ex (fun kv => is_submodule name kv.2 = true)
    us d [] hFresh hSub (by simp)
  rw [List.append_nil] at hE2
  rw [hE2, List.filter_append,
    filterAllTrue d _ (fun c hc => by rw [h0 c hc]; rfl),
    filterAllFalse E2 _ (fun c hc => by rw [hE2sub c hc]; rfl),
    List.append_nil]

/-- A clean successful load (`load_extension` on a module whose body imports
only sub-modules of the extension's namespace and whose `setup` succeeds)
appends the module and its sub-module imports to the module cache, records
the extension, and replays its registrations. -/
theorem load_clean_success (s0 : BotState) (name : String) (oldSpec : ModuleSpec)
    (env0 : String → Option ModuleSpec)
    (hEnv0 : env0 name = some oldSpec)
    (hExt0 : dictGet s0.exts name = none)
    (hMods0 : ∀ km ∈ s0.sysMods, is_submodule name km.1 = false)
    (hOldMods : ∀ km ∈ oldSpec.execMods, is_submodule name km.1 = true)
    (hOldExecOk : oldSpec.execRaises = false)
    (hOldSetup : oldSpec.hasSetup = true) (hOldOk : oldSpec.setupRaises = false) :
    load_extension env0 s0 name =
      ({ cogs := dictUpdate s0.cogs (cogUpdates oldSpec.setupActs),
         commands := dictUpdate s0.commands (cmdUpdates oldSpec.setupActs),
         listeners := oldSpec.setupActs.foldl applyLst s0.listeners,
         exts := s0.exts ++
           [(name, ⟨name, oldSpec.hasSetup, oldSpec.setupActs, oldSpec.setupRaises⟩)],
         sysMods := s0.sysMods ++ dictUpdate
           [(name, ⟨name, oldSpec.hasSetup, oldSpec.setupActs, oldSpec.setupRaises⟩)]
           oldSpec.execMods },
        none) := by
  have hModsName : dictGet s0.sysMods name = none :=
    dictGet_none_of_all s0.sysMods name (fun k => is_submodule name k) hMods0
      (is_submodule_refl name)
  have hFreshMods : ∀ u ∈ oldSpec.execMods, dictGet s0.sysMods u.1 = none :=
    fun u hu => dictGet_none_of_all s0.sysMods u.1 (fun k => is_submodule name k) hMods0
      (hOldMods u hu)
  simp only [load_extension, hExt0, Option.isSome_none, Bool.false_eq_true, if_false, hEnv0,
    load_from_module_spec, hOldExecOk, hOldSetup, hOldOk, Bool.not_true, runSetup]
  rw [dictSet_append_of_none s0.sysMods name _ hModsName]
  rw [dictUpdate_append_left oldSpec.execMods s0.sysMods _ hFreshMods]
  rw [foldl_applyAction_exts, foldl_applyAction_cogs, foldl_applyAction_commands,
    foldl_applyAction_listeners, foldl_applyAction_sysMods]
  rw [foldl_applyCog_eq, foldl_applyCmd_eq]
  rw [dictSet_append_of_none s0.exts name _ hExt0]

/-- The unload half of a reload: `_remove_module_references` followed by
`_call_module_finalizers` on a state that extends a clean base with the
loaded extension's namespaced artifacts restores the base (the listener
table keeps its keys, with the extension's listeners filtered out). -/
theorem reload_unload_phase (s0 : BotState) (name : String) (acts : List Action)
    (lib lib2 : PyModule) (M : List (String × PyModule)) (L : List (String × List String))
    (hCogs0 : ∀ c ∈ s0.cogs, is_submodule name c.2 = false)
    (hCmds0 : ∀ c ∈ s0.commands, is_submodule name c.2 = false)
    (hExt0 : dictGet s0.exts name = none)
    (hMods0 : ∀ km ∈ s0.sysMods, is_submodule name km.1 = false)
    (hSub : ∀ a ∈ acts, is_submodule name a.mod = true)
    (hFresh : ∀ a ∈ acts, actFresh s0 a)
    (hM : ∀ kv ∈ M, is_submodule name kv.1 = true)
    (hLib2 : lib2.pyName = name) :
    call_module_finalizers
      (remove_module_references
        ({ cogs := dictUpdate s0.cogs (cogUpdates acts),
           commands := dictUpdate s0.commands (cmdUpdates acts),
           listeners := L,
           exts := s0.exts ++ [(name, lib)],
           sysMods := s0.sysMods ++ M } : BotState) name)
      lib2 name =
    ({ cogs := s0.cogs, commands := s0.commands,
       listeners := L.map (fun el => (el.1, el.2.filter (fun mo => !(is_submodule name mo)))),
       exts := s0.exts, sysMods := s0.sysMods } : BotState) := by
  have hModsName : dictGet s0.sysMods name = none :=
    dictGet_none_of_all s0.sysMods name (fun k => is_submodule name k) hMods0
      (is_submodule_refl name)
  simp only [remove_module_references, call_module_finalizers, hLib2]
  rw [filter_dictUpdate_sub s0.cogs name (cogUpdates acts) hCogs0
    (cogUpdates_fresh acts s0 hFresh) (cogUpdates_sub acts name hSub)]
  rw [filter_dictUpdate_sub s0.commands name (cmdUpdates acts) hCmds0
    (cmdUpdates_fresh acts s0 hFresh) (cmdUpdates_sub acts name hSub)]
  rw [dictPop_append_left s0.exts _ name hExt0, dictPop_append_left s0.sysMods _ name hModsName]
  simp only [dictPop, if_pos]
  rw [List.append_nil, List.filter_append,
    filterAllTrue s0.sysMods _ (fun km hkm => by rw [hMods0 km hkm]; rfl),
    filterAllFalse (dictPop M name) _ (fun km hkm => by
      rw [hM km (mem_dictPop_sub _ _ _ hkm)]
      rfl),
    List.append_nil]

/-- A load whose module body succeeds but whose `setup` raises after
registering namespaced, fresh artifacts leaves every component of a clean
state unchanged except the listener table, which keeps the keys the failed
`setup` touched (with the extension's listeners filtered out), and signals
`ExtensionFailed`. -/
theorem load_setup_failure (env : String → Option ModuleSpec) (t : BotState) (name : String)
    (newSpec : ModuleSpec)
    (hEnv : env name = some newSpec)
    (hCogsT : ∀ c ∈ t.cogs, is_submodule name c.2 = false)
    (hCmdsT : ∀ c ∈ t.commands, is_submodule name c.2 = false)
    (hExtT : dictGet t.exts name = none)
    (hModsT : ∀ km ∈ t.sysMods, is_submodule name km.1 = false)
    (hExecOk : newSpec.execRaises = false) (hSetup : newSpec.hasSetup = true)
    (hRaises : newSpec.setupRaises = true)
    (hSub : ∀ a ∈ newSpec.setupActs, is_submodule name a.mod = true)
    (hFresh : ∀ a ∈ newSpec.setupActs, actFresh t a)
    (hNewMods : ∀ km ∈ newSpec.execMods, is_submodule name km.1 = true) :
    load_extension env t name =
      ({ t with
          listeners := List.map
            (fun el => (el.1, el.2.filter (fun mo => !(is_submodule name mo))))
            (newSpec.setupActs.foldl applyLst t.listeners) },
        some (.extensionFailed name)) := by
  have hModsName : dictGet t.sysMods name = none :=
    dictGet_none_of_all t.sysMods name (fun k => is_submodule name k) hModsT
      (is_submodule_refl name)
  obtain ⟨M2, hM2, hM2sub⟩ := dictUpdate_append_ex (fun kv => is_submodule name kv.1 = true)
    newSpec.execMods t.sysMods [(name, ⟨name, true, newSpec.setupActs, true⟩)]
    (fun u hu => dictGet_none_of_all t.sysMods u.1 _ hModsT (hNewMods u hu))
    hNewMods
    (fun kv hkv => by
      rcases List.mem_singleton.1 hkv with h
      rw [h]
      exact is_submodule_refl name)
  simp only [load_extension, hExtT, Option.isSome_none, Bool.false_eq_true, if_false, hEnv,
    load_from_module_spec, hExecOk, hSetup, hRaises, Bool.not_true, runSetup]
  rw [dictSet_append_of_none t.sysMods name _ hModsName, hM2]
  rw [foldl_applyAction_cogs, foldl_applyAction_commands, foldl_applyAction_listeners,
    foldl_applyAction_exts, foldl_applyAction_sysMods]
  rw [foldl_applyCog_eq, foldl_applyCmd_eq]
  rw [dictPop_append_left t.sysMods M2 name hModsName]
  simp only [remove_module_references, call_module_finalizers]
  rw [filter_dictUpdate_sub t.cogs name (cogUpdates newSpec.setupActs) hCogsT
    (cogUpdates_fresh _ t hFresh) (cogUpdates_sub _ name hSub)]
  rw [filter_dictUpdate_sub t.commands name (cmdUpdates newSpec.setupActs) hCmdsT
    (cmdUpdates_fresh _ t hFresh) (cmdUpdates_sub _ name hSub)]
  rw [dictPop_eq_of_get_none t.exts name hExtT]
  rw [dictPop_append_left t.sysMods _ name hModsName]
  rw [List.filter_append,
    filterAllTrue t.sysMods _ (fun km hkm => by rw [hModsT km hkm]; rfl),
    filterAllFalse (dictPop (dictPop M2 name) name) _ (fun km hkm => by
      rw [hM2sub km (mem_dictPop_sub _ _ _ (mem_dictPop_sub _ _ _ hkm))]
      rfl),
    List.append_nil]
  rw [if_pos trivial]

/-- C1 counterexample: reload `ext` with a new module body that imports
`ext.sub` and then raises.  The reload re-raises `ExtensionFailed`, but the
exec-failure cleanup only deletes `sys.modules[key]` and the rollback's
`sys.modules.update(modules)` never deletes entries, so the cached sub-module
entry `ext.sub` added by the failed body survives — the module cache scoped
to the extension and its sub-modules differs from its pre-reload state. -/
theorem c1_counterexample :
    (reload_extension c1Env c1Pre "ext").2 = some (.extensionFailed "ext") ∧
    reloadObservEq "ext" c1Pre (reload_extension c1Env c1Pre "ext").1 = false ∧
    dictGet (reload_extension c1Env c1Pre "ext").1.sysMods "ext.sub" = some c1Sub ∧
    dictGet c1Pre.sysMods "ext.sub" = none := by
  decide

/-- C1 (amended): reload atomicity holds for the rollback-reachable part of
the state.  For an extension loaded cleanly into a base state carrying no
artifacts of the extension, if the reload's second phase fails in the new
module's `setup` (after its body executed), where both versions register only
artifacts and sub-module imports attributed to the extension's namespace and
introduce no name collisions, then after `reload_extension` re-raises
`ExtensionFailed` the cog set, command tree, extension registry, and the
whole module cache equal their pre-reload values exactly, and the listener
table is observably equal: every event resolves (via
`extra_events.get(ev, [])`) to its pre-reload listener list.  (Literal
equality of the listener table can still differ by event keys left behind
with empty lists, and the claim as stated fails when the second phase dies
during body execution — see `c1_counterexample`.) -/
theorem c1_reload_rollback (s0 : BotState) (name : String) (oldSpec newSpec : ModuleSpec)
    (env0 env : String → Option ModuleSpec)
    (hEnv0 : env0 name = some oldSpec)
    (hEnv : env name = some newSpec)
    (hCogs0 : ∀ c ∈ s0.cogs, is_submodule name c.2 = false)
    (hCmds0 : ∀ c ∈ s0.commands, is_submodule name c.2 = false)
    (hLst0 : ∀ el ∈ s0.listeners, ∀ mo ∈ el.2, is_submodule name mo = false)
    (hExt0 : dictGet s0.exts name = none)
    (hMods0 : ∀ km ∈ s0.sysMods, is_submodule name km.1 = false)
    (hOldMods : ∀ km ∈ oldSpec.execMods, is_submodule name km.1 = true)
    (hOldExecOk : oldSpec.execRaises = false)
    (hOldSetup : oldSpec.hasSetup = true) (hOldOk : oldSpec.setupRaises = false)
    (hOldSub : ∀ a ∈ oldSpec.setupActs, is_submodule name a.mod = true)
    (hOldFresh : ∀ a ∈ oldSpec.setupActs, actFresh s0 a)
    (hNewExecOk : newSpec.execRaises = false) (hNewSetup : newSpec.hasSetup = true)
    (hNewRaises : newSpec.setupRaises = true)
    (hNewSub : ∀ a ∈ newSpec.setupActs, is_submodule name a.mod = true)
    (hNewFresh : ∀ a ∈ newSpec.setupActs, actFresh s0 a)
    (hNewMods : ∀ km ∈ newSpec.execMods, is_submodule name km.1 = true) :
    (load_extension env0 s0 name).2 = none ∧
    (reload_extension env (load_extension env0 s0 name).1 name).2 =
      some (.extensionFailed name) ∧
    (reload_extension env (load_extension env0 s0 name).1 name).1.cogs =
      (load_extension env0 s0 name).1.cogs ∧
    (reload_extension env (load_extension env0 s0 name).1 name).1.commands =
      (load_extension env0 s0 name).1.commands ∧
    (reload_extension env (load_extension env0 s0 name).1 name).1.exts =
      (load_extension env0 s0 name).1.exts ∧
    (reload_extension env (load_extension env0 s0 name).1 name).1.sysMods =
      (load_extension env0 s0 name).1.sysMods ∧
    ∀ x, listenerGet (reload_extension env (load_extension env0 s0 name).1 name).1.listeners x =
      listenerGet (load_extension env0 s0 name).1.listeners x := by
  have hModsName : dictGet s0.sysMods name = none :=
    dictGet_none_of_all s0.sysMods name (fun k => is_submodule name k) hMods0
      (is_submodule_refl name)
  have hMsub : ∀ kv ∈ dictUpdate
      [(name, (⟨name, oldSpec.hasSetup, oldSpec.setupActs, oldSpec.setupRaises⟩ : PyModule))]
      oldSpec.execMods, is_submodule name kv.1 = true :=
    mem_dictUpdate_all _ oldSpec.execMods _
      (fun kv hkv => by
        rcases List.mem_singleton.1 hkv with h
        rw [h]
        exact is_submodule_refl name)
      hOldMods
  have hMsubF : ∀ kv ∈ dictUpdate
      [(name, (⟨name, oldSpec.hasSetup, oldSpec.setupActs, false⟩ : PyModule))]
      oldSpec.execMods, is_submodule name kv.1 = true :=
    mem_dictUpdate_all _ oldSpec.execMods _
      (fun kv hkv => by
        rcases List.mem_singleton.1 hkv with h
        rw [h]
        exact is_submodule_refl name)
      hOldMods
  rw [load_clean_success s0 name oldSpec env0 hEnv0 hExt0 hMods0 hOldMods hOldExecOk
    hOldSetup hOldOk]
  dsimp only
  refine ⟨rfl, ?_⟩
  have hGetLib : dictGet (s0.exts ++
      [(name, (⟨name, oldSpec.hasSetup, oldSpec.setupActs, oldSpec.setupRaises⟩ : PyModule))])
      name = some ⟨name, oldSpec.hasSetup, oldSpec.setupActs, oldSpec.setupRaises⟩ := by
    rw [dictGet_append_right s0.exts _ name hExt0]
    simp [dictGet]
  simp only [reload_extension, hGetLib]
  rw [reload_unload_phase s0 name oldSpec.setupActs
    ⟨name, oldSpec.hasSetup, oldSpec.setupActs, oldSpec.setupRaises⟩
    ⟨name, oldSpec.hasSetup, oldSpec.setupActs, oldSpec.setupRaises⟩
    (dictUpdate
      [(name, ⟨name, oldSpec.hasSetup, oldSpec.setupActs, oldSpec.setupRaises⟩)]
      oldSpec.execMods)
    (oldSpec.setupActs.foldl applyLst s0.listeners)
    hCogs0 hCmds0 hExt0 hMods0 hOldSub hOldFresh hMsub rfl]
  rw [load_setup_failure env
    ⟨s0.cogs, s0.commands,
      List.map (fun el => (el.1, List.filter (fun mo => !(is_submodule name mo)) el.2))
        (List.foldl applyLst s0.listeners oldSpec.setupActs),
      s0.exts, s0.sysMods⟩
    name newSpec hEnv hCogs0 hCmds0 hExt0 hMods0 hNewExecOk
    hNewSetup hNewRaises hNewSub hNewFresh hNewMods]
  dsimp only
  simp only [runSetup, hOldOk, Bool.false_eq_true, if_false]
  rw [foldl_applyAction_cogs, foldl_applyAction_commands, foldl_applyAction_listeners,
    foldl_applyAction_exts, foldl_applyAction_sysMods]
  rw [foldl_applyCog_eq, foldl_applyCmd_eq]
  rw [dictSet_append_of_none s0.exts name _ hExt0]
  dsimp only
  have hModulesFilter : List.filter (fun km => is_submodule name km.1)
      (s0.sysMods ++ dictUpdate
        [(name, (⟨name, oldSpec.hasSetup, oldSpec.setupActs, false⟩ : PyModule))]
        oldSpec.execMods) =
      dictUpdate
        [(name, (⟨name, oldSpec.hasSetup, oldSpec.setupActs, false⟩ : PyModule))]
        oldSpec.execMods := by
    rw [List.filter_append, filterAllFalse s0.sysMods _ hMods0, List.nil_append,
      filterAllTrue _ _ hMsubF]
  rw [hModulesFilter]
  have hUpdM : dictUpdate s0.sysMods
      (dictUpdate
        [(name, (⟨name, oldSpec.hasSetup, oldSpec.setupActs, false⟩ : PyModule))]
        oldSpec.execMods) =
      s0.sysMods ++ dictUpdate
        [(name, (⟨name, oldSpec.hasSetup, oldSpec.setupActs, false⟩ : PyModule))]
        oldSpec.execMods :=
    dictUpdate_eq_append _ s0.sysMods
      (fun kv hkv => dictGet_none_of_all s0.sysMods kv.1 (fun k => is_submodule name k) hMods0
        (hMsubF kv hkv))
      (dictUpdate_keys_nodup oldSpec.execMods _ (by simp))
  rw [hUpdM]
  refine ⟨trivial, rfl, rfl, rfl, rfl, ?_⟩
  intro x
  simp only [listenerGet_fold, listenerGet_map_filter]
  have hbase := listenerGet_all s0.listeners x (fun m => is_submodule name m = false) hLst0
  have holdl := lstActsFor_all x oldSpec.setupActs (fun m => is_submodule name m) hOldSub
  have hnewl := lstActsFor_all x newSpec.setupActs (fun m => is_submodule name m) hNewSub
  have hstrip : ∀ (b l : List String), (∀ mo ∈ b, is_submodule name mo = false) →
      (∀ mo ∈ l, is_submodule name mo = true) →
      (b ++ l).filter (fun mo => !(is_submodule name mo)) = b := by
    intro b l hb hl
    rw [List.filter_append, filterAllTrue b _ (fun mo hmo => by rw [hb mo hmo]; rfl),
      filterAllFalse l _ (fun mo hmo => by rw [hl mo hmo]; rfl), List.append_nil]
  rw [hstrip _ _ hbase holdl, hstrip _ _ hbase hnewl]

/-- Witness for `c1_reload_rollback`: a concrete failed reload of `ext`
rolls back exactly. -/
theorem c1_reload_rollback_witness :
    (load_extension c1WEnv0 emptyBot "ext").2 = none ∧
    (reload_extension c1WEnv (load_extension c1WEnv0 emptyBot "ext").1 "ext").2 =
      some (.extensionFailed "ext") ∧
    (reload_extension c1WEnv (load_extension c1WEnv0 emptyBot "ext").1 "ext").1.cogs =
      (load_extension c1WEnv0 emptyBot "ext").1.cogs ∧
    (reload_extension c1WEnv (load_extension c1WEnv0 emptyBot "ext").1 "ext").1.commands =
      (load_extension c1WEnv0 emptyBot "ext").1.commands ∧
    (reload_extension c1WEnv (load_extension c1WEnv0 emptyBot "ext").1 "ext").1.exts =
      (load_extension c1WEnv0 emptyBot "ext").1.exts ∧
    (reload_extension c1WEnv (load_extension c1WEnv0 emptyBot "ext").1 "ext").1.sysMods =
      (load_extension c1WEnv0 emptyBot "ext").1.sysMods ∧
    listenerGet
        (reload_extension c1WEnv (load_extension c1WEnv0 emptyBot "ext").1 "ext").1.listeners
        "on_x" =
      listenerGet (load_extension c1WEnv0 emptyBot "ext").1.listeners "on_x" := by
  obtain ⟨h1, h2, h3, h4, h5, h6, h7⟩ :=
    c1_reload_rollback emptyBot "ext" c1WOldSpec c1WNewSpec c1WEnv0 c1WEnv
      (by decide) (by decide) (by decide) (by decide) (by decide) (by decide) (by decide)
      (by decide) (by decide) (by decide) (by decide) (by decide)
      (by intro a ha; rcases List.mem_singleton.1 ha with h; subst h; trivial)
      (by decide) (by decide) (by decide) (by decide)
      (by intro a ha; rcases List.mem_singleton.1 ha with h; subst h; rfl)
      (by decide)
  exact ⟨h1, h2, h3, h4, h5, h6, h7 "on_x"⟩

/-! ### Helper lemmas for the schema differ -/

theorem beqComm {α : Type} [BEq α] [LawfulBEq α] (a b : α) : (a == b) = (b == a) := by
  by_cases h : a = b
  · subst h; rfl
  · rw [beq_eq_false_iff_ne.2 h, beq_eq_false_iff_ne.2 (Ne.symm h)]

theorem pyEqComm (a b : CVal) : CVal.pyEq a b = CVal.pyEq b a := by
  cases a <;> cases b <;> simp only [CVal.pyEq] <;> apply beqComm

theorem listAllMemCongr {α : Type} {f g : α → Bool} :
    ∀ (l : List α), (∀ a ∈ l, f a = g a) → l.all f = l.all g := by
  intro l h
  induction l with
  | nil => rfl
  | cons a l ih =>
    rw [List.all_cons, List.all_cons, h a (List.mem_cons_self a l),
      ih (fun b hb => h b (List.mem_cons_of_mem a hb))]

theorem listAnyMemCongr {α : Type} {f g : α → Bool} :
    ∀ (l : List α), (∀ a ∈ l, f a = g a) → l.any f = l.any g := by
  intro l h
  induction l with
  | nil => rfl
  | cons a l ih =>
    rw [List.any_cons, List.any_cons, h a (List.mem_cons_self a l),
      ih (fun b hb => h b (List.mem_cons_of_mem a hb))]

theorem check_choices_comm (c d : List Choice) : check_choices c d = check_choices d c := by
  cases c with
  | nil =>
    cases d with
    | nil => rfl
    | cons y ys => rfl
  | cons x xs =>
    cases d with
    | nil => rfl
    | cons y ys =>
      have hP : ∀ a b : Choice,
          (a.name == b.name && CVal.pyEq a.value b.value) =
          (b.name == a.name && CVal.pyEq b.value a.value) := by
        intro a b
        rw [beqComm a.name b.name, pyEqComm a.value b.value]
      simp only [check_choices, List.isEmpty_cons, List.isEmpty_nil, Bool.not_false,
        Bool.and_false, Bool.false_and, Bool.and_true, Bool.true_and, Bool.or_self,
        Bool.false_eq_true, if_false, Bool.or_false, Bool.false_or]
      rw [Bool.and_comm]
      congr 1
      · exact congrArg _ (funext fun a =>
          congrArg _ (funext fun b => (hP b a).symm))
      · exact congrArg _ (funext fun a =>
          congrArg _ (funext fun b => (hP a b).symm))

theorem optListSize_pos (l : List OptNode) : 1 ≤ optListSize l := by
  cases l with
  | nil => exact Nat.le_refl 1
  | cons a l =>
    rw [optListSize]
    omega

theorem checkOptionsGo_nil_nil (fuel : Nat) (h : 1 ≤ fuel) :
    checkOptionsGo fuel [] [] = true := by
  match fuel, h with
  | fuel + 1, _ => rfl

/-- C5 counterexample: the schema diff is not symmetric.  With
`A = [x → [a], y → [b]]` and `B = [x → [a]]` (both `x` entries nested), the
nested-options arm only checks the options of `new` against the name-indexed
options of `current`, so `_check_options(A, B)` is `true` while
`_check_options(B, A)` is `false`. -/
theorem c5_counterexample :
    check_options c5A c5B = true ∧ check_options c5B c5A = false := by
  decide

/-- C5 (amended): the schema diff is symmetric on flat trees — whenever no
option in either tree carries a non-empty nested option list (the arm of
`_check_options` that breaks symmetry is then never taken),
`_check_options(A, B) = _check_options(B, A)`. -/
theorem c5_flat_symmetry (A B : List OptNode)
    (hA : ∀ i ∈ A, i.options = []) (hB : ∀ i ∈ B, i.options = []) :
    check_options A B = check_options B A := by
  cases A with
  | nil =>
    cases B with
    | nil => rfl
    | cons y ys => rfl
  | cons x xs =>
    cases B with
    | nil => rfl
    | cons y ys =>
      have hAany : ((x :: xs).any fun i => !i.options.isEmpty) = false := by
        rw [List.any_eq_false]
        intro a ha
        rw [hA a ha]
        simp
      have hBany : ((y :: ys).any fun i => !i.options.isEmpty) = false := by
        rw [List.any_eq_false]
        intro a ha
        rw [hB a ha]
        simp
      have hfA : 1 ≤ optListSize (x :: xs) := optListSize_pos _
      have hfB : 1 ≤ optListSize (y :: ys) := optListSize_pos _
      simp only [check_options, checkOptionsGo, List.isEmpty_cons, Bool.not_false,
        Bool.and_false, Bool.false_and, Bool.and_true, Bool.true_and, Bool.or_self,
        Bool.false_eq_true, if_false, hAany, hBany]
      conv_rhs => rw [Bool.and_comm]
      congr 1
      · refine listAllMemCongr _ (fun a ha => ?_)
        refine listAnyMemCongr _ (fun b hb => ?_)
        rw [hA a ha, hB b hb, checkOptionsGo_nil_nil _ hfB, checkOptionsGo_nil_nil _ hfA]
        simp only [Bool.and_true]
        rw [beqComm b.name a.name, beqComm b.description a.description,
          beqComm b.defaultPermissions a.defaultPermissions,
          check_choices_comm a.choices b.choices]
      · refine listAllMemCongr _ (fun b hb => ?_)
        refine listAnyMemCongr _ (fun a ha => ?_)
        rw [hA a ha, hB b hb, checkOptionsGo_nil_nil _ hfB, checkOptionsGo_nil_nil _ hfA]
        simp only [Bool.and_true]
        rw [beqComm b.name a.name, beqComm b.description a.description,
          beqComm b.defaultPermissions a.defaultPermissions,
          check_choices_comm a.choices b.choices]

/-- Witness for `c5_flat_symmetry` on two concrete flat trees. -/
theorem c5_flat_symmetry_witness :
    check_options [.mk "a" "d" true [] []] [.mk "b" "d" true [] [], .mk "a" "d" true [] []] =
      check_options [.mk "b" "d" true [] [], .mk "a" "d" true [] []] [.mk "a" "d" true [] []] :=
  c5_flat_symmetry [.mk "a" "d" true [] []] [.mk "b" "d" true [] [], .mk "a" "d" true [] []]
    (by
      intro i hi
      rcases List.mem_singleton.1 hi with h
      rw [h]
      rfl)
    (by
      intro i hi
      rcases List.mem_cons.1 hi with h | h
      · rw [h]
        rfl
      · rcases List.mem_singleton.1 h with h2
        rw [h2]
        rfl)

end DPy
